import Mathlib

/-!
# OTClient text area: layout, scrolling and cursor

A shallow embedding of `src/framework/graphics/textarea.cpp`.

Conventions of the embedding.

* C++ `int` values are integers (`Int`); signed arithmetic is not wrapped, and
  the only place where wrap-around is part of the behaviour, the casts to
  `uint`, is written out with `% 2^32` (`toUInt`).
* A character is its unsigned code `(uchar)c`, a natural number; a string is
  the list of its codes.
* An operation returns `none` where the C++ code leaves defined behaviour:
  a read outside a vector or string, a dereference of the null font, or the
  `std::out_of_range` thrown by `std::string::insert`.
* The frame clock `g_engine.getLastFrameTicks()` is an argument `ticks`.
-/

namespace OTClient

/-! ## Geometry -/

/-- Modelled from the spec: the `Point` value type (its header is not among the
sources); a pair of integer coordinates, compared componentwise. -/
structure Point where
  x : Int
  y : Int
deriving DecidableEq, Repr

/-- Modelled from the spec: the `Size` value type (its header is not among the
sources); an integer width and height, compared componentwise. -/
structure Size where
  width : Int
  height : Int
deriving DecidableEq, Repr

/-- Modelled from the spec: the `Rect` value type (its header is not among the
sources). A rectangle is stored by its inclusive corners, so that
`right = left + width - 1`; the source relies on this in
`glyphRect.right() - virtualRect.width() + 1` and in the cursor bar placed at
`left() - 1` with width 1. -/
structure Rect where
  x1 : Int
  y1 : Int
  x2 : Int
  y2 : Int
deriving DecidableEq, Repr

namespace Rect

/-- Modelled from the spec: `Rect()`, the default rectangle, which is the
"invalid/empty" rectangle of an entry that is not drawn. -/
def default : Rect := ⟨0, 0, -1, -1⟩

/-- Modelled from the spec: `Rect(x, y, width, height)`. -/
def ofXYWH (x y w h : Int) : Rect := ⟨x, y, x + w - 1, y + h - 1⟩

/-- Modelled from the spec: `Rect(topLeft, size)`. -/
def ofPointSize (p : Point) (sz : Size) : Rect :=
  ⟨p.x, p.y, p.x + sz.width - 1, p.y + sz.height - 1⟩

/-- Modelled from the spec: `isValid()`, false for a "degenerate (zero or
negative extent)" rectangle. -/
def isValid (r : Rect) : Prop := r.x1 ≤ r.x2 ∧ r.y1 ≤ r.y2

instance (r : Rect) : Decidable r.isValid := by
  unfold isValid; infer_instance

/-- Modelled from the spec: `isNull()`, zero width and zero height. -/
def isNull (r : Rect) : Prop := r.x2 = r.x1 - 1 ∧ r.y2 = r.y1 - 1

instance (r : Rect) : Decidable r.isNull := by
  unfold isNull; infer_instance

/-- Modelled from the spec: `left()`. -/
def left (r : Rect) : Int := r.x1
/-- Modelled from the spec: `top()`. -/
def top (r : Rect) : Int := r.y1
/-- Modelled from the spec: `right()`. -/
def right (r : Rect) : Int := r.x2
/-- Modelled from the spec: `bottom()`. -/
def bottom (r : Rect) : Int := r.y2
/-- Modelled from the spec: `width()`. -/
def width (r : Rect) : Int := r.x2 - r.x1 + 1
/-- Modelled from the spec: `height()`. -/
def height (r : Rect) : Int := r.y2 - r.y1 + 1
/-- Modelled from the spec: `size()`. -/
def size (r : Rect) : Size := ⟨r.width, r.height⟩
/-- Modelled from the spec: `topLeft()`. -/
def topLeft (r : Rect) : Point := ⟨r.x1, r.y1⟩
/-- Modelled from the spec: `bottomRight()`. -/
def bottomRight (r : Rect) : Point := ⟨r.x2, r.y2⟩

/-- Modelled from the spec: `setLeft(pos)` moves the left edge only. -/
def setLeft (r : Rect) (pos : Int) : Rect := { r with x1 := pos }
/-- Modelled from the spec: `setTop(pos)` moves the top edge only. -/
def setTop (r : Rect) (pos : Int) : Rect := { r with y1 := pos }
/-- Modelled from the spec: `setRight(pos)` moves the right edge only. -/
def setRight (r : Rect) (pos : Int) : Rect := { r with x2 := pos }
/-- Modelled from the spec: `setBottom(pos)` moves the bottom edge only. -/
def setBottom (r : Rect) (pos : Int) : Rect := { r with y2 := pos }

/-- Modelled from the spec: `translate(x, y)` / `translate(point)`. -/
def translate (r : Rect) (dx dy : Int) : Rect :=
  ⟨r.x1 + dx, r.y1 + dy, r.x2 + dx, r.y2 + dy⟩

/-- Modelled from the spec: `addTop(add)` moves the top edge up by `add`. -/
def addTop (r : Rect) (add : Int) : Rect := { r with y1 := r.y1 - add }
/-- Modelled from the spec: `addLeft(add)` moves the left edge left by `add`. -/
def addLeft (r : Rect) (add : Int) : Rect := { r with x1 := r.x1 - add }

/-- Modelled from the spec: `contains(point)`, edges included. An axis whose
extent is negative is read with its two edges swapped. -/
def contains (r : Rect) (p : Point) : Prop :=
  let l := if r.x2 < r.x1 - 1 then r.x2 else r.x1
  let rr := if r.x2 < r.x1 - 1 then r.x1 else r.x2
  let t := if r.y2 < r.y1 - 1 then r.y2 else r.y1
  let b := if r.y2 < r.y1 - 1 then r.y1 else r.y2
  ¬ (p.x < l ∨ p.x > rr) ∧ ¬ (p.y < t ∨ p.y > b)

instance (r : Rect) (p : Point) : Decidable (r.contains p) := by
  unfold contains; infer_instance

/-- Modelled from the spec: `intersects(rect)`. A null rectangle intersects
nothing; an axis whose extent is negative is read with its two edges swapped. -/
def intersects (a b : Rect) : Prop :=
  let l1 := if a.x2 - a.x1 + 1 < 0 then a.x2 else a.x1
  let r1 := if a.x2 - a.x1 + 1 < 0 then a.x1 else a.x2
  let l2 := if b.x2 - b.x1 + 1 < 0 then b.x2 else b.x1
  let r2 := if b.x2 - b.x1 + 1 < 0 then b.x1 else b.x2
  let t1 := if a.y2 - a.y1 + 1 < 0 then a.y2 else a.y1
  let b1 := if a.y2 - a.y1 + 1 < 0 then a.y1 else a.y2
  let t2 := if b.y2 - b.y1 + 1 < 0 then b.y2 else b.y1
  let b2 := if b.y2 - b.y1 + 1 < 0 then b.y1 else b.y2
  ¬ (a.isNull ∨ b.isNull) ∧ ¬ (l1 > r2 ∨ l2 > r1) ∧ ¬ (t1 > b2 ∨ t2 > b1)

instance (a b : Rect) : Decidable (a.intersects b) := by
  unfold intersects; infer_instance

end Rect

/-! ## Alignment flags -/

/-- Modelled from the spec: alignment flag TOP (the enumeration is declared in
a header that is not among the sources); the flags are distinct single bits. -/
def ALIGN_TOP : Nat := 1
/-- Modelled from the spec: alignment flag BOTTOM. -/
def ALIGN_BOTTOM : Nat := 2
/-- Modelled from the spec: alignment flag LEFT. -/
def ALIGN_LEFT : Nat := 4
/-- Modelled from the spec: alignment flag RIGHT. -/
def ALIGN_RIGHT : Nat := 8
/-- Modelled from the spec: alignment flag HORIZONTAL_CENTER. -/
def ALIGN_HORIZONTAL_CENTER : Nat := 16
/-- Modelled from the spec: alignment flag VERTICAL_CENTER. -/
def ALIGN_VERTICAL_CENTER : Nat := 32
/-- Modelled from the spec: the default alignment, TOP combined with LEFT. -/
def ALIGN_TOP_LEFT : Nat := ALIGN_TOP ||| ALIGN_LEFT

/-- The C++ test `m_align & flag`: some bit of `flag` is set in `align`. -/
def hasFlag (align flag : Nat) : Prop := align &&& flag ≠ 0

instance (align flag : Nat) : Decidable (hasFlag align flag) := by
  unfold hasFlag; infer_instance

/-! ## Font -/

/-- Modelled from the spec: the glyph metrics provider `Font` (`font.cpp` is
not among the sources). The tables are indexed by character code; the layout
function `calculateGlyphsPositions(text, align, &textBoxSize)` returns the
natural position of every glyph and the size of the laid-out text box. -/
structure Font where
  glyphsTextureCoords : Nat → Rect
  glyphsSize : Nat → Size
  topMargin : Int
  glyphHeight : Int
  glyphSpacing : Size
  calculateGlyphsPositions : List Nat → Nat → List Point × Size

/-! ## Text area state -/

/-- The members of `TextArea`. `font` is `none` for the null pointer. -/
structure TextArea where
  font : Option Font
  text : List Nat
  screenCoords : Rect
  drawArea : Rect
  align : Nat
  color : Nat
  startInternalPos : Point
  cursorPos : Int
  startRenderPos : Int
  cursorTicks : Int
  cursorVisible : Bool
  glyphsTexCoords : List Rect
  glyphsCoords : List Rect

/-- The element `v[i]` of a vector for an `int` index; `none` when the index is
outside `0 .. size-1`. -/
def readAt {α : Type} (v : List α) (i : Int) : Option α :=
  if i < 0 then none else v[i.toNat]?

/-- The character code `(uchar)text[i]` of a `std::string` for an `int` index:
`text[size]` is the terminating zero, any other index outside `0 .. size-1` is
`none`. -/
def readChar (text : List Nat) (i : Int) : Option Nat :=
  if i = text.length then some 0 else readAt text i

/-- The cast `(uint)i` of a 32-bit `int`. -/
def toUInt (i : Int) : Nat := (i % 2 ^ 32).toNat

namespace TextArea

/-! ## recalculate -/

/-- Lines 103-124 of `recalculate`: the new scroll offset `m_startInternalPos`. -/
def adjustStartInternalPos (font : Font) (s : TextArea) (glyphsPositions : List Point) :
    Option Point :=
  let textLenght : Int := s.text.length
  if s.cursorPos ≥ 0 ∧ textLenght > 0 then
    if s.startRenderPos > s.cursorPos then
      match readAt glyphsPositions s.cursorPos with
      | none => none
      | some p => some ⟨p.x, p.y - font.topMargin⟩
    else if s.cursorPos > s.startRenderPos then
      let virtualRect := Rect.ofPointSize s.startInternalPos s.screenCoords.size
      let pos := s.cursorPos - 1
      match readChar s.text pos with
      | none => none
      | some glyph =>
        match readAt glyphsPositions pos with
        | none => none
        | some p =>
          let glyphRect := Rect.ofPointSize p (font.glyphsSize glyph)
          if ¬ virtualRect.contains glyphRect.topLeft ∨
              ¬ virtualRect.contains glyphRect.bottomRight then
            some ⟨max (glyphRect.right - virtualRect.width + 1) 0,
                  max (glyphRect.bottom - virtualRect.height) 0⟩
          else
            some s.startInternalPos
    else
      some s.startInternalPos
  else
    some ⟨0, 0⟩

/-- Lines 144-159: the translation of a glyph rectangle to its aligned position. -/
def alignGlyph (screenCoords : Rect) (align : Nat) (textBoxSize : Size) (g : Rect) : Rect :=
  let g1 :=
    if hasFlag align ALIGN_BOTTOM then
      g.translate 0 (screenCoords.height - textBoxSize.height)
    else if hasFlag align ALIGN_VERTICAL_CENTER then
      g.translate 0 ((screenCoords.height - textBoxSize.height).tdiv 2)
    else g
  if hasFlag align ALIGN_RIGHT then
    g1.translate (screenCoords.width - textBoxSize.width) 0
  else if hasFlag align ALIGN_HORIZONTAL_CENTER then
    g1.translate ((screenCoords.width - textBoxSize.width).tdiv 2) 0
  else g1

/-- Lines 165-173: bound the top-left of the glyph to the scroll offset, moving
the texture rectangle by the same amounts. -/
def clipTopLeft (startInternalPos : Point) (gt : Rect × Rect) : Rect × Rect :=
  let gt1 :=
    if gt.1.top < startInternalPos.y then
      (gt.1.setTop startInternalPos.y, gt.2.setTop (gt.2.top + (startInternalPos.y - gt.1.top)))
    else gt
  if gt1.1.left < startInternalPos.x then
    (gt1.1.setLeft startInternalPos.x, gt1.2.setLeft (gt1.2.left + (startInternalPos.x - gt1.1.left)))
  else gt1

/-- Lines 185-193: bound the bottom-right of the glyph to the bottom-right of
`screenCoords`, moving the texture rectangle by the same amounts. -/
def clipBottomRight (screenCoords : Rect) (gt : Rect × Rect) : Rect × Rect :=
  let gt1 :=
    if gt.1.bottom > screenCoords.bottom then
      (gt.1.setBottom screenCoords.bottom,
        gt.2.setBottom (gt.2.bottom + (screenCoords.bottom - gt.1.bottom)))
    else gt
  if gt1.1.right > screenCoords.right then
    (gt1.1.setRight screenCoords.right,
      gt1.2.setRight (gt1.2.right + (screenCoords.right - gt1.1.right)))
  else gt1

/-- Lines 140-193, the body of the glyph loop for a glyph with code at least 32
and natural position `pos`: the screen and texture rectangles to store, or
`none` when the iteration ends in a `continue`. -/
def layoutGlyph (font : Font) (screenCoords : Rect) (align : Nat) (textBoxSize : Size)
    (startInternalPos : Point) (pos : Point) (glyph : Nat) : Option (Rect × Rect) :=
  let glyphScreenCoords :=
    alignGlyph screenCoords align textBoxSize (Rect.ofPointSize pos (font.glyphsSize glyph))
  let glyphTextureCoords := font.glyphsTextureCoords glyph
  if glyphScreenCoords.bottom < startInternalPos.y ∨ glyphScreenCoords.right < startInternalPos.x then
    none
  else
    let gt := clipTopLeft startInternalPos (glyphScreenCoords, glyphTextureCoords)
    let g1 := (gt.1.translate (-startInternalPos.x) (-startInternalPos.y)).translate
      screenCoords.topLeft.x screenCoords.topLeft.y
    if ¬ screenCoords.intersects g1 then
      none
    else
      some (clipBottomRight screenCoords (g1, gt.2))

/-- Lines 132-202: the glyph loop, from index `i` over the remaining characters
of the text. It writes entry `i` of both vectors and `m_startRenderPos`. -/
def glyphsLoop (font : Font) (glyphsPositions : List Point) (textBoxSize : Size) :
    List Nat → Nat → TextArea → Option TextArea
  | [], _, s => some s
  | glyph :: rest, i, s =>
    let s1 := { s with glyphsCoords := s.glyphsCoords.set i Rect.default }
    if glyph < 32 then
      glyphsLoop font glyphsPositions textBoxSize rest (i + 1) s1
    else
      match glyphsPositions[i]? with
      | none => none
      | some pos =>
        match layoutGlyph font s.screenCoords s.align textBoxSize s.startInternalPos pos glyph with
        | none => glyphsLoop font glyphsPositions textBoxSize rest (i + 1) s1
        | some gt =>
          glyphsLoop font glyphsPositions textBoxSize rest (i + 1)
            { s1 with
              glyphsCoords := s1.glyphsCoords.set i gt.1
              glyphsTexCoords := s1.glyphsTexCoords.set i gt.2
              startRenderPos :=
                if s1.startRenderPos = -1 ∧ gt.1.size = font.glyphsSize glyph then (i : Int)
                else s1.startRenderPos }

/-- The method `TextArea::recalculate`. -/
def recalculate (s : TextArea) : Option TextArea :=
  if ¬ s.screenCoords.isValid then
    some s
  else
    let textLenght := s.text.length
    let s1 := { s with
      glyphsCoords := List.replicate textLenght Rect.default
      glyphsTexCoords := List.replicate textLenght Rect.default }
    match s1.font with
    | none => none
    | some font =>
      let layout := font.calculateGlyphsPositions s1.text s1.align
      match adjustStartInternalPos font s1 layout.1 with
      | none => none
      | some startInternalPos =>
        let s2 := { s1 with
          startInternalPos := startInternalPos
          drawArea := ⟨s1.screenCoords.left, s1.screenCoords.top + font.topMargin,
                       s1.screenCoords.right, s1.screenCoords.bottom⟩
          startRenderPos := -1 }
        glyphsLoop font layout.1 layout.2 s2.text 0 s2

/-! ## Constructors and mutators -/

/-- Modelled from the spec: `Color::white`, the default draw colour (colours
are declared outside the sources and play no part in the layout). -/
def Color.white : Nat := 0xFFFFFFFF

/-- The default constructor `TextArea::TextArea()`. The member `m_cursorTicks`
is not initialised by the constructor; its value is the argument. -/
def mkDefault (cursorTicks : Int) : TextArea :=
  { font := none
    text := []
    screenCoords := Rect.default
    drawArea := Rect.default
    align := ALIGN_TOP_LEFT
    color := Color.white
    startInternalPos := ⟨0, 0⟩
    cursorPos := -1
    startRenderPos := 0
    cursorTicks := cursorTicks
    cursorVisible := false
    glyphsTexCoords := []
    glyphsCoords := [] }

/-- The constructor `TextArea::TextArea(font, text, screenCoords, align, color)`. -/
def mkWith (font : Option Font) (text : List Nat) (screenCoords : Rect) (align : Nat)
    (color : Nat) (cursorTicks : Int) : Option TextArea :=
  recalculate
    { font := font
      text := text
      screenCoords := screenCoords
      drawArea := Rect.default
      align := align
      color := color
      startInternalPos := ⟨0, 0⟩
      cursorPos := -1
      startRenderPos := 0
      cursorTicks := cursorTicks
      cursorVisible := false
      glyphsTexCoords := []
      glyphsCoords := [] }

/-- The method `TextArea::setFont`. -/
def setFont (font : Option Font) (s : TextArea) : Option TextArea :=
  recalculate { s with font := font }

/-- The method `TextArea::setText`. -/
def setText (text : List Nat) (ticks : Int) (s : TextArea) : Option TextArea :=
  let s1 := { s with text := text }
  let s2 := if s1.cursorPos ≥ 0 then { s1 with cursorPos := 0, cursorTicks := ticks } else s1
  recalculate s2

/-- The method `TextArea::setScreenCoords`. -/
def setScreenCoords (screenCoords : Rect) (s : TextArea) : Option TextArea :=
  recalculate { s with screenCoords := screenCoords }

/-- The method `TextArea::setAlign`. -/
def setAlign (align : Nat) (s : TextArea) : Option TextArea :=
  recalculate { s with align := align }

/-- The method `TextArea::enableCursor`. -/
def enableCursor (enable : Bool) (ticks : Int) (s : TextArea) :
    Option TextArea :=
  let s1 := if enable then { s with cursorPos := 0, cursorTicks := ticks }
            else { s with cursorPos := -1 }
  recalculate s1

/-- The method `TextArea::appendCharacter`. `std::string::insert` throws when
the position is beyond the end of the string. -/
def appendCharacter (c : Nat) (ticks : Int) (s : TextArea) :
    Option TextArea :=
  if s.cursorPos ≥ 0 then
    if s.cursorPos > s.text.length then none
    else
      recalculate { s with
        text := s.text.take s.cursorPos.toNat ++ c :: s.text.drop s.cursorPos.toNat
        cursorPos := s.cursorPos + 1
        cursorTicks := ticks }
  else some s

/-- The method `TextArea::removeCharacter`. -/
def removeCharacter (right : Bool) (ticks : Int) (s : TextArea) :
    Option TextArea :=
  if s.cursorPos ≥ 0 then
    let s1 :=
      if right = true ∧ toUInt s.cursorPos < s.text.length then
        { s with text := s.text.eraseIdx s.cursorPos.toNat }
      else if toUInt s.cursorPos ≤ s.text.length ∧ s.cursorPos > 0 then
        { s with
          cursorPos := s.cursorPos - 1
          text := s.text.eraseIdx (s.cursorPos - 1).toNat
          cursorTicks := ticks }
      else s
    recalculate s1
  else some s

/-- The method `TextArea::moveCursor`. The sum `(uint)m_cursorPos+1` is an
unsigned 32-bit sum. -/
def moveCursor (right : Bool) (ticks : Int) (s : TextArea) : Option TextArea :=
  let s1 :=
    if right then
      if (toUInt s.cursorPos + 1) % 2 ^ 32 ≤ s.text.length then
        { s with cursorPos := s.cursorPos + 1, cursorTicks := ticks }
      else s
    else
      if s.cursorPos - 1 ≥ 0 then
        { s with cursorPos := s.cursorPos - 1, cursorTicks := ticks }
      else s
  recalculate s1

/-! ## draw -/

/-- A call made to the renderer: `drawTexturedRect(screenCoords, texture,
textureCoords, color)` (the texture is that of the font) or
`drawFilledRect(rect, color)`. -/
inductive DrawCmd where
  | texturedRect (screenCoords : Rect) (textureCoords : Rect) (color : Nat)
  | filledRect (rect : Rect) (color : Nat)
deriving DecidableEq, Repr

/-- Lines 60-62 of `draw`: the loop over `i = 0 .. numGlyphs-1`, from index `i`
with `n` iterations left. -/
def drawGlyphs (s : TextArea) : Nat → Nat → Option (List DrawCmd)
  | _, 0 => some []
  | i, n + 1 =>
    match s.glyphsCoords[i]? with
    | none => none
    | some g =>
      match s.glyphsTexCoords[i]? with
      | none => none
      | some t =>
        match drawGlyphs s (i + 1) n with
        | none => none
        | some cmds => some (DrawCmd.texturedRect g t s.color :: cmds)

/-- Lines 70-75 of `draw`: the rectangle of the cursor bar. -/
def cursorRect (font : Font) (s : TextArea) : Option Rect :=
  let numGlyphs : Int := s.text.length
  let atDrawAreaStart : Option Bool :=
    if s.cursorPos = 0 then some true
    else if s.cursorPos < numGlyphs then
      match readAt s.glyphsCoords s.cursorPos with
      | none => none
      | some g => some (decide (g.topLeft = s.drawArea.topLeft))
    else some false
  match atDrawAreaStart with
  | none => none
  | some true => some (Rect.ofXYWH (s.drawArea.left - 1) s.drawArea.top 1 font.glyphHeight)
  | some false =>
    match readAt s.glyphsCoords (s.cursorPos - 1) with
    | none => none
    | some g => some (Rect.ofXYWH g.right g.top 1 font.glyphHeight)

/-- The method `TextArea::draw` at frame time `ticks`: the state after the call
and the calls made to the renderer, in order. -/
def draw (ticks : Int) (s : TextArea) : Option (TextArea × List DrawCmd) :=
  let numGlyphs : Int := s.text.length
  match s.font with
  | none => none
  | some font =>
    match drawGlyphs s 0 s.text.length with
    | none => none
    | some cmds =>
      if s.cursorVisible = true ∧ s.cursorPos ≥ 0 ∧ s.cursorPos ≤ numGlyphs then
        let delay : Int := 500
        if ticks - s.cursorTicks ≤ delay then
          match cursorRect font s with
          | none => none
          | some r => some (s, cmds ++ [DrawCmd.filledRect r s.color])
        else if ticks - s.cursorTicks ≥ 2 * delay then
          some ({ s with cursorTicks := ticks }, cmds)
        else
          some (s, cmds)
      else
        some (s, cmds)

/-! ## getTextPos -/

/-- Lines 288-295 of `getTextPos`: the loop from index `i` with `n` iterations
left. The rectangle `clickGlyphRect` is computed from the font metrics and then
left unused: the test is made on the stored rectangle. -/
def getTextPosLoop (s : TextArea) (pos : Point) : Nat → Nat → Option Int
  | _, 0 => some (-1)
  | i, n + 1 =>
    match s.glyphsCoords[i]? with
    | none => none
    | some g =>
      match s.font with
      | none => none
      | some font =>
        let clickGlyphRect :=
          (g.addTop (font.topMargin + font.glyphSpacing.height)).addLeft
            (font.glyphSpacing.width + 1)
        if g.contains pos then some (i : Int) else getTextPosLoop s pos (i + 1) n

/-- The method `TextArea::getTextPos`. -/
def getTextPos (pos : Point) (s : TextArea) : Option Int :=
  let textLength := s.text.length
  getTextPosLoop s pos 0 textLength

end TextArea

open TextArea

/-! ## Font registry (`fonts.cpp`) -/

/-- The character codes of a string literal. -/
def str (s : String) : List Nat := s.toList.map Char.toNat

/-- The library function `boost::ends_with(input, test)`. -/
def endsWith (input test : List Nat) : Bool := test.isSuffixOf input

/-- The library function `boost::erase_first(input, search)`: the input without
the first occurrence of `search`, or the input itself when there is none. -/
def eraseFirst (search : List Nat) : List Nat → List Nat
  | [] => []
  | c :: cs =>
    if search.isPrefixOf (c :: cs) then (c :: cs).drop search.length
    else c :: eraseFirst search cs

namespace Fonts

/-- The assignment `m_fonts[name] = font` on the map `m_fonts`, kept as a list
of entries with distinct names. -/
def assign {α : Type} (name : List Nat) (font : α) : List (List Nat × α) → List (List Nat × α)
  | [] => [(name, font)]
  | e :: rest => if e.1 = name then (name, font) :: rest else e :: assign name font rest

/-- The method `Fonts::init` for the directory listing `files`; `load path` is
the font that `Font::load(path)` leaves in a new `Font`. -/
def init {α : Type} (load : List Nat → α) :
    List (List Nat) → List (List Nat × α) → List (List Nat × α)
  | [], fonts => fonts
  | file :: files, fonts =>
    if endsWith file (str ".yml") then
      let name := eraseFirst (str ".yml") file
      let font := load (str "fonts/" ++ file)
      init load files (assign name font fonts)
    else
      init load files fonts

/-- The method `Fonts::get`; `none` is the `NULL` returned, after the error is
logged, when the name is not registered. -/
def get {α : Type} (fonts : List (List Nat × α)) (fontName : List Nat) : Option α :=
  match fonts.find? (fun e => e.1 = fontName) with
  | none => none
  | some e => some e.2

end Fonts

/-! ## Sequences of calls -/

/-- A call of one of the public mutators of `TextArea`, with its arguments and
the frame time at which it is made. -/
inductive Mutator where
  | setFont (font : Option Font)
  | setText (text : List Nat) (ticks : Int)
  | setScreenCoords (screenCoords : Rect)
  | setAlign (align : Nat)
  | enableCursor (enable : Bool) (ticks : Int)
  | appendCharacter (c : Nat) (ticks : Int)
  | removeCharacter (right : Bool) (ticks : Int)
  | moveCursor (right : Bool) (ticks : Int)

/-- The effect of a mutator call on the state. -/
def Mutator.apply : Mutator → TextArea → Option TextArea
  | .setFont font, s => TextArea.setFont font s
  | .setText text ticks, s => TextArea.setText text ticks s
  | .setScreenCoords screenCoords, s => TextArea.setScreenCoords screenCoords s
  | .setAlign align, s => TextArea.setAlign align s
  | .enableCursor enable ticks, s => TextArea.enableCursor enable ticks s
  | .appendCharacter c ticks, s => TextArea.appendCharacter c ticks s
  | .removeCharacter right ticks, s => TextArea.removeCharacter right ticks s
  | .moveCursor right ticks, s => TextArea.moveCursor right ticks s

/-- The length of the text after a mutator call fits the `int` in which the
source keeps it (`int textLenght = m_text.length()`). -/
def Mutator.fitsInt : Mutator → TextArea → Prop
  | .setFont _, _ => True
  | .setText text _, _ => text.length < 2 ^ 31
  | .setScreenCoords _, _ => True
  | .setAlign _, _ => True
  | .enableCursor _ _, _ => True
  | .appendCharacter _ _, s => s.text.length + 1 < 2 ^ 31
  | .removeCharacter _ _, _ => True
  | .moveCursor _ _, _ => True

/-- A sequence of mutator calls, stopping at the first call that does not
return. -/
def runMutators : List Mutator → TextArea → Option TextArea
  | [], s => some s
  | m :: ms, s =>
    match m.apply s with
    | none => none
    | some s1 => runMutators ms s1

/-- The states a `TextArea` object can be in: those left by one of the two
constructors and by any sequence of mutator calls that return, the texts being
short enough for their length to fit an `int` (`Mutator.fitsInt`). -/
inductive Reachable : TextArea → Prop where
  | default (cursorTicks : Int) : Reachable (TextArea.mkDefault cursorTicks)
  | withArgs (font : Option Font) (text : List Nat) (screenCoords : Rect) (align color : Nat)
      (cursorTicks : Int) (s : TextArea) :
      text.length < 2 ^ 31 →
      TextArea.mkWith font text screenCoords align color cursorTicks = some s →
      Reachable s
  | step (m : Mutator) (s s1 : TextArea) :
      Reachable s → m.fitsInt s → m.apply s = some s1 → Reachable s1

/-! ## Fonts and states of the worked examples -/

/-- The natural positions of a single line of glyphs laid side by side from
abscissa `x`, each glyph as wide as `glyphWidth` says. -/
def linePositions (glyphWidth : Nat → Int) (y : Int) : List Nat → Int → List Point
  | [], _ => []
  | c :: cs, x => ⟨x, y⟩ :: linePositions glyphWidth y cs (x + glyphWidth c)

/-- The width of a single line of glyphs. -/
def lineWidth (glyphWidth : Nat → Int) : List Nat → Int
  | [] => 0
  | c :: cs => glyphWidth c + lineWidth glyphWidth cs

/-- A font for the worked examples: glyph `c` is `glyphWidth c` wide and
`glyphHeight` high, a text is one line of glyphs side by side at ordinate `y`,
and glyph `c` sits in the atlas at `(16 * c, 0)`. -/
def lineFont (glyphWidth : Nat → Int) (glyphHeight y : Int) : Font :=
  { glyphsTextureCoords := fun c => Rect.ofXYWH (16 * c) 0 (glyphWidth c) glyphHeight
    glyphsSize := fun c => ⟨glyphWidth c, glyphHeight⟩
    topMargin := 0
    glyphHeight := glyphHeight
    glyphSpacing := ⟨0, 0⟩
    calculateGlyphsPositions := fun text _ =>
      (linePositions glyphWidth y text 0, ⟨lineWidth glyphWidth text, glyphHeight⟩) }

/-! ## Frames -/

/-- The drawing of one frame shows the cursor: the renderer receives a
`drawFilledRect` call (only the cursor bar is drawn that way). -/
def drawsCursor (cmds : List DrawCmd) : Bool :=
  cmds.any fun c => match c with
    | .filledRect _ _ => true
    | .texturedRect _ _ _ => false

/-- Successive `draw` calls at the given frame times: the final state and, for
every call, whether it drew the cursor. -/
def drawFrames : List Int → TextArea → Option (TextArea × List Bool)
  | [], s => some (s, [])
  | ticks :: rest, s =>
    match TextArea.draw ticks s with
    | none => none
    | some r =>
      match drawFrames rest r.1 with
      | none => none
      | some r1 => some (r1.1, drawsCursor r.2 :: r1.2)

/-! ## Notions used in the statements -/

/-- The members that neither `recalculate` nor its glyph loop writes. -/
structure SameSettings (s t : TextArea) : Prop where
  font : t.font = s.font
  text : t.text = s.text
  screenCoords : t.screenCoords = s.screenCoords
  align : t.align = s.align
  color : t.color = s.color
  cursorPos : t.cursorPos = s.cursorPos
  cursorTicks : t.cursorTicks = s.cursorTicks
  cursorVisible : t.cursorVisible = s.cursorVisible

/-- The reads of the scroll adjustment (lines 104-121) stay inside the text:
either no branch reads (`cursorPos < 0`, empty text, or
`cursorPos == startRenderPos`), or the scroll-left branch reads index
`cursorPos < length`, or the scroll-right branch reads index `cursorPos - 1`
with `1 <= cursorPos <= length`. -/
def scrollReadsInBounds (s : TextArea) : Prop :=
  s.cursorPos < 0 ∨ s.text = [] ∨ s.cursorPos = s.startRenderPos ∨
    (s.cursorPos < s.startRenderPos ∧ s.cursorPos < s.text.length) ∨
    (s.startRenderPos < s.cursorPos ∧ 1 ≤ s.cursorPos ∧ s.cursorPos ≤ s.text.length)

instance (s : TextArea) : Decidable (scrollReadsInBounds s) := by
  unfold scrollReadsInBounds; infer_instance

/-- The state in which `recalculate` enters the glyph loop (lines 91-131): both
vectors cleared and resized, the scroll offset and the draw area set, and
`m_startRenderPos = -1`. -/
def loopEntryState (font : Font) (s : TextArea) (startInternalPos : Point) : TextArea :=
  { s with
    glyphsCoords := List.replicate s.text.length Rect.default
    glyphsTexCoords := List.replicate s.text.length Rect.default
    startInternalPos := startInternalPos
    drawArea := ⟨s.screenCoords.left, s.screenCoords.top + font.topMargin,
                 s.screenCoords.right, s.screenCoords.bottom⟩
    startRenderPos := -1 }

/-- The cursor is disabled (`cursorPos == -1`) or is an insertion index of the
text (`0 <= cursorPos <= text.length()`). -/
def CursorInBounds (s : TextArea) : Prop :=
  s.cursorPos = -1 ∨ (0 ≤ s.cursorPos ∧ s.cursorPos ≤ s.text.length)

/-- The horizontal alignment offset in the words of the specification: for
viewport width `W` and text box width `bw`, `W - bw` if the alignment has RIGHT,
else `(W - bw) / 2` (C++ truncating division) if it has HORIZONTAL_CENTER, else 0. -/
def specAlignDx (align : Nat) (W bw : Int) : Int :=
  if hasFlag align ALIGN_RIGHT then W - bw
  else if hasFlag align ALIGN_HORIZONTAL_CENTER then (W - bw).tdiv 2
  else 0

/-- The vertical alignment offset in the words of the specification: for
viewport height `H` and text box height `bh`, `H - bh` if the alignment has
BOTTOM, else `(H - bh) / 2` (C++ truncating division) if it has
VERTICAL_CENTER, else 0. -/
def specAlignDy (align : Nat) (H bh : Int) : Int :=
  if hasFlag align ALIGN_BOTTOM then H - bh
  else if hasFlag align ALIGN_VERTICAL_CENTER then (H - bh).tdiv 2
  else 0

/-- The aligned rectangle of a glyph in the words of the specification: its
natural rectangle (position from the font, size from the glyph table) moved by
the alignment offsets, in the coordinates of the viewport. -/
def specAlignedRect (s : TextArea) (font : Font) (pos : Point) (glyph : Nat) : Rect :=
  Rect.ofPointSize
    ⟨pos.x + specAlignDx s.align s.screenCoords.width
        (font.calculateGlyphsPositions s.text s.align).2.width,
      pos.y + specAlignDy s.align s.screenCoords.height
        (font.calculateGlyphsPositions s.text s.align).2.height⟩
    (font.glyphsSize glyph)

/-- The rectangle `glyphRect(glyphsPositions[pos], glyphsSize[glyph])` of a glyph
at its natural position. -/
def naturalRect (font : Font) (pos : Point) (glyph : Nat) : Rect :=
  Rect.ofPointSize pos (font.glyphsSize glyph)

/-- The rectangle `virtualRect(m_startInternalPos, m_screenCoords.size())`: the
viewport in the coordinates of the laid-out text. -/
def virtualViewport (s : TextArea) : Rect :=
  Rect.ofPointSize s.startInternalPos s.screenCoords.size

/-! ## States of the worked examples -/

/-- The state left by `TextArea(font, "AB", Rect(0, 0, 50, 10), ALIGN_TOP_LEFT,
white)` over the example font with 10x10 glyphs: both glyphs laid out, cursor
disabled. -/
def laidOutArea : TextArea :=
  { font := some (lineFont (fun _ => 10) 10 0)
    text := [65, 66]
    screenCoords := Rect.ofXYWH 0 0 50 10
    drawArea := ⟨0, 0, 49, 9⟩
    align := ALIGN_TOP_LEFT
    color := Color.white
    startInternalPos := ⟨0, 0⟩
    cursorPos := -1
    startRenderPos := 0
    cursorTicks := 0
    cursorVisible := false
    glyphsTexCoords := [⟨1040, 0, 1049, 9⟩, ⟨1056, 0, 1065, 9⟩]
    glyphsCoords := [⟨0, 0, 9, 9⟩, ⟨10, 0, 19, 9⟩] }

/-- The state `laidOutArea` after `enableCursor(true)` at frame time 3. -/
def cursorArea : TextArea :=
  { laidOutArea with cursorPos := 0, cursorTicks := 3 }

/-- The state `laidOutArea` with the cursor at the end of the text "AB". -/
def cursorAtEndArea : TextArea :=
  { laidOutArea with cursorPos := 2 }

/-- The state `laidOutArea` with a viewport of width zero. -/
def zeroWidthArea : TextArea :=
  { laidOutArea with screenCoords := Rect.ofXYWH 0 0 0 10 }

/-- The state left by `TextArea(font, "", Rect(0, 0, 0, 10), ALIGN_TOP_LEFT,
white)` followed by `setText("A")`: the viewport has width zero, so neither
call lays anything out. -/
def staleArea : TextArea :=
  { font := some (lineFont (fun _ => 10) 10 0)
    text := [65]
    screenCoords := Rect.ofXYWH 0 0 0 10
    drawArea := Rect.default
    align := ALIGN_TOP_LEFT
    color := Color.white
    startInternalPos := ⟨0, 0⟩
    cursorPos := -1
    startRenderPos := 0
    cursorTicks := 0
    cursorVisible := false
    glyphsTexCoords := []
    glyphsCoords := [] }

/-- The state `laidOutArea` with the cursor shown at the end of the text and
the blink timer started at frame time 0. -/
def blinkingArea : TextArea :=
  { laidOutArea with cursorPos := 2, cursorTicks := 0, cursorVisible := true }

/-- Six glyphs "AAAAAA" of 10x10 in a 50x10 viewport, laid out without scroll,
with the cursor just moved from 5 to 6 by `moveCursor(true)`. -/
def scrollingArea : TextArea :=
  { font := some (lineFont (fun _ => 10) 10 0)
    text := [65, 65, 65, 65, 65, 65]
    screenCoords := Rect.ofXYWH 0 0 50 10
    drawArea := ⟨0, 0, 49, 9⟩
    align := ALIGN_TOP_LEFT
    color := Color.white
    startInternalPos := ⟨0, 0⟩
    cursorPos := 6
    startRenderPos := 0
    cursorTicks := 0
    cursorVisible := false
    glyphsTexCoords := [⟨1040, 0, 1049, 9⟩, ⟨1040, 0, 1049, 9⟩, ⟨1040, 0, 1049, 9⟩,
      ⟨1040, 0, 1049, 9⟩, ⟨1040, 0, 1049, 9⟩, Rect.default]
    glyphsCoords := [⟨0, 0, 9, 9⟩, ⟨10, 0, 19, 9⟩, ⟨20, 0, 29, 9⟩, ⟨30, 0, 39, 9⟩,
      ⟨40, 0, 49, 9⟩, Rect.default] }

/-- Five glyphs "AAAAA", 10 wide and 1 high, on the row of ordinate 10, cursor
at the end of the text, in a viewport that has just been shrunk from 50x20 to
50x10 by `setScreenCoords`: the row of the text is the first row below the
viewport. -/
def shortViewportArea : TextArea :=
  { font := some (lineFont (fun _ => 10) 1 10)
    text := [65, 65, 65, 65, 65]
    screenCoords := Rect.ofXYWH 0 0 50 10
    drawArea := ⟨0, 0, 49, 19⟩
    align := ALIGN_TOP_LEFT
    color := Color.white
    startInternalPos := ⟨0, 0⟩
    cursorPos := 5
    startRenderPos := 0
    cursorTicks := 0
    cursorVisible := false
    glyphsTexCoords := [⟨1040, 0, 1049, 0⟩, ⟨1040, 0, 1049, 0⟩, ⟨1040, 0, 1049, 0⟩,
      ⟨1040, 0, 1049, 0⟩, ⟨1040, 0, 1049, 0⟩]
    glyphsCoords := [⟨0, 10, 9, 10⟩, ⟨10, 10, 19, 10⟩, ⟨20, 10, 29, 10⟩, ⟨30, 10, 39, 10⟩,
      ⟨40, 10, 49, 10⟩] }

/-- The calls of the scroll-to-cursor example: `enableCursor(true)` followed by
`n` calls of `moveCursor(true)`. -/
def moveRightCalls (n : Nat) : List Mutator :=
  Mutator.enableCursor true 0 :: List.replicate n (Mutator.moveCursor true 0)

/-- The example font with a wide glyph: "W" (code 87) is 30 wide, every other
glyph 10 wide, all 10 high. -/
def wideFont : Font := lineFont (fun c => if c = 87 then 30 else 10) 10 0

/-- The text "AWA" over `wideFont` in a 20x10 viewport, as `moveCursor(false)`
hands it to `recalculate` after the calls `enableCursor(true)`,
`moveCursor(true)` three times and `moveCursor(false)` once: the layout is
scrolled to the last glyph (offset 30, first complete glyph 2) and the cursor
has just been moved from 2 to 1. -/
def wideGlyphArea : TextArea :=
  { font := some wideFont
    text := [65, 87, 65]
    screenCoords := Rect.ofXYWH 0 0 20 10
    drawArea := ⟨0, 0, 19, 9⟩
    align := ALIGN_TOP_LEFT
    color := Color.white
    startInternalPos := ⟨30, 0⟩
    cursorPos := 1
    startRenderPos := 2
    cursorTicks := 0
    cursorVisible := false
    glyphsTexCoords := [Rect.default, ⟨1412, 0, 1421, 9⟩, ⟨1040, 0, 1049, 9⟩]
    glyphsCoords := [Rect.default, ⟨0, 0, 9, 9⟩, ⟨10, 0, 19, 9⟩] }

/-- The text "A" over 10x10 glyphs in the viewport `Rect(5, 7, 50, 30)`,
aligned HORIZONTAL_CENTER and BOTTOM, cursor disabled, not yet laid out. -/
def centeredArea : TextArea :=
  { font := some (lineFont (fun _ => 10) 10 0)
    text := [65]
    screenCoords := Rect.ofXYWH 5 7 50 30
    drawArea := Rect.default
    align := ALIGN_HORIZONTAL_CENTER ||| ALIGN_BOTTOM
    color := Color.white
    startInternalPos := ⟨0, 0⟩
    cursorPos := -1
    startRenderPos := 0
    cursorTicks := 0
    cursorVisible := false
    glyphsTexCoords := []
    glyphsCoords := [] }

/-- The scroll state of the 100-glyph example with the cursor at `k`: 100
glyphs "A" of 10x10 in a 50x10 viewport at the origin, TOP_LEFT, scroll offset
`(max(10k - 50, 0), 0)`, and a first complete glyph not after `k`. -/
def HundredGlyphs (k : Nat) (s : TextArea) : Prop :=
  s.font = some (lineFont (fun _ => 10) 10 0) ∧ s.text = List.replicate 100 65 ∧
    s.screenCoords = Rect.ofXYWH 0 0 50 10 ∧ s.align = ALIGN_TOP_LEFT ∧
    s.cursorPos = k ∧ s.startInternalPos = ⟨max (10 * (k : Int) - 50) 0, 0⟩ ∧
    s.startRenderPos ≤ k

/-- The rectangle stored for glyph `k` of the 100-glyph example when the cursor
has just been moved behind it: the natural rectangle `(10k, 0)-(10k + 9, 9)`
moved left by the scroll offset `max(10(k + 1) - 50, 0)`. -/
def hundredGlyphRect (k : Nat) : Rect :=
  ⟨10 * (k : Int) + -(max (10 * ((k : Int) + 1) - 50) 0) + 0, 0,
    10 * (k : Int) + 10 - 1 + -(max (10 * ((k : Int) + 1) - 50) 0) + 0, 9⟩

/-- A state whose text "A\nB" holds a control character between two glyphs. -/
def controlArea : TextArea := { laidOutArea with text := [65, 10, 66] }

/-- Six glyphs "AAAAAA" of 10x10 on the row of ordinate 10, cursor at the end of
the text, in a viewport that has just been shrunk from 60x20 to 50x10 by
`setScreenCoords`: the state in which that call enters `recalculate`, after the
constructor with the 60x20 viewport, `enableCursor(true)` and six
`moveCursor(true)`. -/
def secondRowArea : TextArea :=
  { font := some (lineFont (fun _ => 10) 10 10)
    text := [65, 65, 65, 65, 65, 65]
    screenCoords := Rect.ofXYWH 0 0 50 10
    drawArea := ⟨0, 0, 59, 19⟩
    align := ALIGN_TOP_LEFT
    color := Color.white
    startInternalPos := ⟨0, 0⟩
    cursorPos := 6
    startRenderPos := 0
    cursorTicks := 0
    cursorVisible := false
    glyphsTexCoords := [⟨1040, 0, 1049, 9⟩, ⟨1040, 0, 1049, 9⟩, ⟨1040, 0, 1049, 9⟩,
      ⟨1040, 0, 1049, 9⟩, ⟨1040, 0, 1049, 9⟩, ⟨1040, 0, 1049, 9⟩]
    glyphsCoords := [⟨0, 10, 9, 19⟩, ⟨10, 10, 19, 19⟩, ⟨20, 10, 29, 19⟩, ⟨30, 10, 39, 19⟩,
      ⟨40, 10, 49, 19⟩, ⟨50, 10, 59, 19⟩] }

/-- The state left by `TextArea(font, "AB", Rect(0, 0, 50, 10), ALIGN_TOP_LEFT,
white)`, `enableCursor(true)` and `setText("\n")`: the only character is a
control character, so no glyph is complete and `m_startRenderPos` is -1, with
the cursor at 0. -/
def newlineArea : TextArea :=
  { font := some (lineFont (fun _ => 10) 10 0)
    text := [10]
    screenCoords := Rect.ofXYWH 0 0 50 10
    drawArea := ⟨0, 0, 49, 9⟩
    align := ALIGN_TOP_LEFT
    color := Color.white
    startInternalPos := ⟨0, 0⟩
    cursorPos := 0
    startRenderPos := -1
    cursorTicks := 5
    cursorVisible := false
    glyphsTexCoords := [Rect.default]
    glyphsCoords := [Rect.default] }

/-- The screen rectangle of a glyph before any clipping: its natural rectangle
moved to the aligned position (lines 141-159), then by the scroll offset and
to the viewport (lines 176-179). -/
def unclippedGlyphRect (font : Font) (screenCoords : Rect) (align : Nat) (textBoxSize : Size)
    (startInternalPos pos : Point) (glyph : Nat) : Rect :=
  ((alignGlyph screenCoords align textBoxSize
      (Rect.ofPointSize pos (font.glyphsSize glyph))).translate
      (-startInternalPos.x) (-startInternalPos.y)).translate
    screenCoords.topLeft.x screenCoords.topLeft.y

/-- The text "\nA" over 10x10 glyphs in a 50x10 viewport, as `enableCursor(true)`
hands it to `recalculate` right after the constructor: glyph 1 is the first
complete glyph and the cursor has just been set to 0. The layout is the one
`recalculate` returns again. -/
def scrollLeftArea : TextArea :=
  { font := some (lineFont (fun _ => 10) 10 0)
    text := [10, 65]
    screenCoords := Rect.ofXYWH 0 0 50 10
    drawArea := ⟨0, 0, 49, 9⟩
    align := ALIGN_TOP_LEFT
    color := Color.white
    startInternalPos := ⟨0, 0⟩
    cursorPos := 0
    startRenderPos := 1
    cursorTicks := 0
    cursorVisible := false
    glyphsTexCoords := [Rect.default, ⟨1040, 0, 1049, 9⟩]
    glyphsCoords := [Rect.default, ⟨10, 0, 19, 9⟩] }

/-! ## The glyph loop -/

theorem SameSettings.refl (s : TextArea) : SameSettings s s := ⟨rfl, rfl, rfl, rfl, rfl, rfl, rfl, rfl⟩

theorem SameSettings.trans {s t u : TextArea} (h1 : SameSettings s t) (h2 : SameSettings t u) :
    SameSettings s u :=
  ⟨h2.font.trans h1.font, h2.text.trans h1.text, h2.screenCoords.trans h1.screenCoords,
   h2.align.trans h1.align, h2.color.trans h1.color, h2.cursorPos.trans h1.cursorPos,
   h2.cursorTicks.trans h1.cursorTicks, h2.cursorVisible.trans h1.cursorVisible⟩

theorem glyphsLoop_frame (font : Font) (glyphsPositions : List Point) (textBoxSize : Size)
    (rest : List Nat) : ∀ (i : Nat) (s t : TextArea),
    glyphsLoop font glyphsPositions textBoxSize rest i s = some t →
    SameSettings s t ∧ t.drawArea = s.drawArea ∧ t.startInternalPos = s.startInternalPos ∧
      t.glyphsCoords.length = s.glyphsCoords.length ∧
      t.glyphsTexCoords.length = s.glyphsTexCoords.length := by
  induction rest with
  | nil =>
    intro i s t h
    simp only [glyphsLoop, Option.some.injEq] at h
    subst h
    exact ⟨SameSettings.refl _, rfl, rfl, rfl, rfl⟩
  | cons glyph rest ih =>
    intro i s t h
    simp only [glyphsLoop] at h
    split at h
    · obtain ⟨h1, h2, h3, h4, h5⟩ := ih _ _ _ h
      exact ⟨⟨h1.font, h1.text, h1.screenCoords, h1.align, h1.color, h1.cursorPos,
        h1.cursorTicks, h1.cursorVisible⟩, h2, h3, by simpa using h4, h5⟩
    · split at h
      · exact absurd h (by simp)
      · split at h
        · obtain ⟨h1, h2, h3, h4, h5⟩ := ih _ _ _ h
          exact ⟨⟨h1.font, h1.text, h1.screenCoords, h1.align, h1.color, h1.cursorPos,
            h1.cursorTicks, h1.cursorVisible⟩, h2, h3, by simpa using h4, h5⟩
        · obtain ⟨h1, h2, h3, h4, h5⟩ := ih _ _ _ h
          exact ⟨⟨h1.font, h1.text, h1.screenCoords, h1.align, h1.color, h1.cursorPos,
            h1.cursorTicks, h1.cursorVisible⟩, h2, h3, by simpa using h4, by simpa using h5⟩

theorem glyphsLoop_returns (font : Font) (glyphsPositions : List Point) (textBoxSize : Size)
    (rest : List Nat) : ∀ (i : Nat) (s : TextArea),
    i + rest.length ≤ glyphsPositions.length →
    ∃ t, glyphsLoop font glyphsPositions textBoxSize rest i s = some t := by
  induction rest with
  | nil => intro i s _; exact ⟨s, rfl⟩
  | cons glyph rest ih =>
    intro i s hlen
    simp only [List.length_cons] at hlen
    have hi : i < glyphsPositions.length := by omega
    simp only [glyphsLoop]
    split
    · exact ih _ _ (by omega)
    · rw [List.getElem?_eq_getElem hi]
      simp only
      split
      · exact ih _ _ (by omega)
      · exact ih _ _ (by omega)

theorem glyphsLoop_before (font : Font) (glyphsPositions : List Point) (textBoxSize : Size)
    (rest : List Nat) : ∀ (i : Nat) (s t : TextArea),
    glyphsLoop font glyphsPositions textBoxSize rest i s = some t →
    ∀ j, j < i → t.glyphsCoords[j]? = s.glyphsCoords[j]? ∧
      t.glyphsTexCoords[j]? = s.glyphsTexCoords[j]? := by
  induction rest with
  | nil =>
    intro i s t h j _
    simp only [glyphsLoop, Option.some.injEq] at h
    subst h
    exact ⟨rfl, rfl⟩
  | cons glyph rest ih =>
    intro i s t h j hj
    have hne : i ≠ j := by omega
    simp only [glyphsLoop] at h
    split at h
    · obtain ⟨h1, h2⟩ := ih _ _ _ h j (by omega)
      exact ⟨by simpa [List.getElem?_set, hne] using h1, h2⟩
    · split at h
      · exact absurd h (by simp)
      · split at h
        · obtain ⟨h1, h2⟩ := ih _ _ _ h j (by omega)
          exact ⟨by simpa [List.getElem?_set, hne] using h1, h2⟩
        · obtain ⟨h1, h2⟩ := ih _ _ _ h j (by omega)
          exact ⟨by simpa [List.getElem?_set, hne] using h1,
            by simpa [List.getElem?_set, hne] using h2⟩

theorem glyphsLoop_entry (font : Font) (glyphsPositions : List Point) (textBoxSize : Size)
    (rest : List Nat) : ∀ (i : Nat) (s t : TextArea),
    glyphsLoop font glyphsPositions textBoxSize rest i s = some t →
    ∀ k glyph, rest[k]? = some glyph → i + k < s.glyphsCoords.length →
      (glyph < 32 → t.glyphsCoords[i + k]? = some Rect.default ∧
        t.glyphsTexCoords[i + k]? = s.glyphsTexCoords[i + k]?) ∧
      (32 ≤ glyph → ∃ pos, glyphsPositions[i + k]? = some pos ∧
        (layoutGlyph font s.screenCoords s.align textBoxSize s.startInternalPos pos glyph = none →
          t.glyphsCoords[i + k]? = some Rect.default ∧
          t.glyphsTexCoords[i + k]? = s.glyphsTexCoords[i + k]?) ∧
        (∀ gt, layoutGlyph font s.screenCoords s.align textBoxSize s.startInternalPos pos glyph
            = some gt →
          t.glyphsCoords[i + k]? = some gt.1 ∧
          (i + k < s.glyphsTexCoords.length → t.glyphsTexCoords[i + k]? = some gt.2))) := by
  induction rest with
  | nil => intro i s t _ k glyph hk; simp at hk
  | cons g rest ih =>
    intro i s t h k glyph hk hlen
    simp only [glyphsLoop] at h
    cases k with
    | zero =>
      simp only [List.getElem?_cons_zero, Option.some.injEq] at hk
      subst hk
      simp only [Nat.add_zero] at hlen ⊢
      split at h
      · rename_i hctl
        obtain ⟨h1, h2⟩ := glyphsLoop_before _ _ _ _ _ _ _ h i (by omega)
        refine ⟨fun _ => ⟨?_, h2⟩, fun h32 => absurd hctl (by omega)⟩
        rw [h1]; simp [List.getElem?_set, hlen]
      · rename_i hctl
        refine ⟨fun h32 => absurd h32 hctl, fun _ => ?_⟩
        split at h
        · exact absurd h (by simp)
        · rename_i pos hpos
          refine ⟨pos, hpos, ?_, ?_⟩
          · intro hnone
            rw [hnone] at h
            simp only at h
            obtain ⟨h1, h2⟩ := glyphsLoop_before _ _ _ _ _ _ _ h i (by omega)
            refine ⟨?_, h2⟩
            rw [h1]; simp [List.getElem?_set, hlen]
          · intro gt hsome
            rw [hsome] at h
            simp only at h
            obtain ⟨h1, h2⟩ := glyphsLoop_before _ _ _ _ _ _ _ h i (by omega)
            refine ⟨?_, fun hlen2 => ?_⟩
            · rw [h1]; simp [List.getElem?_set, hlen]
            · rw [h2]; simp [List.getElem?_set, hlen2]
    | succ k =>
      simp only [List.getElem?_cons_succ] at hk
      have e : i + (k + 1) = (i + 1) + k := by omega
      rw [e] at hlen ⊢
      have hne : i ≠ i + 1 + k := by omega
      split at h
      · have := ih _ _ _ h k glyph hk (by simpa using hlen)
        simpa [List.getElem?_set, hne] using this
      · split at h
        · exact absurd h (by simp)
        · split at h
          · have := ih _ _ _ h k glyph hk (by simpa using hlen)
            simpa [List.getElem?_set, hne] using this
          · have := ih _ _ _ h k glyph hk (by simpa using hlen)
            simpa [List.getElem?_set, hne] using this

/-! ## recalculate -/

theorem readAt_eq_getElem? {α : Type} (v : List α) (i : Int) (h : 0 ≤ i) :
    readAt v i = v[i.toNat]? := by
  simp [readAt, Int.not_lt.mpr h]

theorem readAt_isSome {α : Type} (v : List α) (i : Int) (h0 : 0 ≤ i) (h1 : i < v.length) :
    ∃ a, readAt v i = some a := by
  rw [readAt_eq_getElem? v i h0]
  have : i.toNat < v.length := by omega
  exact ⟨v[i.toNat], List.getElem?_eq_getElem this⟩

theorem readChar_of_lt (text : List Nat) (i : Int) (h0 : 0 ≤ i) (h1 : i < text.length) :
    readChar text i = text[i.toNat]? := by
  have : i ≠ text.length := by omega
  simp [readChar, this, readAt_eq_getElem? text i h0]

theorem adjustStartInternalPos_returns (font : Font) (s : TextArea) (glyphsPositions : List Point)
    (hlen : s.text.length ≤ glyphsPositions.length) (hb : scrollReadsInBounds s) :
    ∃ p, adjustStartInternalPos font s glyphsPositions = some p := by
  unfold adjustStartInternalPos
  simp only
  split
  · rename_i hc
    have hne : s.text ≠ [] := by
      intro h; rw [h] at hc; simp at hc
    split
    · rename_i hgt
      have hlt : s.cursorPos < s.text.length := by
        rcases hb with h | h | h | h | h
        · omega
        · exact absurd h hne
        · omega
        · exact h.2
        · omega
      obtain ⟨a, ha⟩ := readAt_isSome glyphsPositions s.cursorPos hc.1 (by omega)
      rw [ha]; exact ⟨_, rfl⟩
    · split
      · rename_i hngt hgt
        have hr : 1 ≤ s.cursorPos ∧ s.cursorPos ≤ s.text.length := by
          rcases hb with h | h | h | h | h
          · omega
          · exact absurd h hne
          · omega
          · omega
          · exact h.2
        obtain ⟨a, ha⟩ := readAt_isSome glyphsPositions (s.cursorPos - 1) (by omega) (by omega)
        obtain ⟨c, hc⟩ := readAt_isSome s.text (s.cursorPos - 1) (by omega) (by omega)
        rw [readChar_of_lt s.text _ (by omega) (by omega),
          ← readAt_eq_getElem? s.text _ (by omega), hc, ha]
        simp only
        split <;> exact ⟨_, rfl⟩
      · exact ⟨_, rfl⟩
  · exact ⟨_, rfl⟩

theorem recalculate_of_invalid (s : TextArea) (h : ¬ s.screenCoords.isValid) :
    recalculate s = some s := by
  simp [recalculate, h]

theorem recalculate_eq (s : TextArea) (font : Font) (hv : s.screenCoords.isValid)
    (hf : s.font = some font) :
    recalculate s =
      match adjustStartInternalPos font s (font.calculateGlyphsPositions s.text s.align).1 with
      | none => none
      | some p =>
        glyphsLoop font (font.calculateGlyphsPositions s.text s.align).1
          (font.calculateGlyphsPositions s.text s.align).2 s.text 0 (loopEntryState font s p) := by
  obtain ⟨f, text, sc, da, al, co, sip, cp, srp, ct, cv, gtc, gc⟩ := s
  simp only at hf hv
  subst hf
  simp only [recalculate, hv, not_true_eq_false, if_false]
  rfl

theorem sameSettings_loopEntryState (font : Font) (s : TextArea) (p : Point) :
    SameSettings s (loopEntryState font s p) :=
  ⟨rfl, rfl, rfl, rfl, rfl, rfl, rfl, rfl⟩

theorem recalculate_frame (s t : TextArea) (h : recalculate s = some t) : SameSettings s t := by
  by_cases hv : s.screenCoords.isValid
  · cases hf : s.font with
    | none => simp [recalculate, hv, hf] at h
    | some font =>
      rw [recalculate_eq s font hv hf] at h
      split at h
      · exact absurd h (by simp)
      · exact (sameSettings_loopEntryState font s _).trans (glyphsLoop_frame _ _ _ _ _ _ _ h).1
  · rw [recalculate_of_invalid s hv] at h
    simp only [Option.some.injEq] at h
    subst h
    exact SameSettings.refl _

theorem recalculate_returns (s : TextArea) (font : Font) (hv : s.screenCoords.isValid)
    (hf : s.font = some font)
    (hlen : s.text.length ≤ (font.calculateGlyphsPositions s.text s.align).1.length)
    (hb : scrollReadsInBounds s) : ∃ t, recalculate s = some t := by
  rw [recalculate_eq s font hv hf]
  obtain ⟨p, hp⟩ := adjustStartInternalPos_returns font s _ hlen hb
  rw [hp]
  exact glyphsLoop_returns _ _ _ _ _ _ (by simpa using hlen)

theorem recalculate_lengths (s t : TextArea) (hv : s.screenCoords.isValid)
    (h : recalculate s = some t) :
    t.glyphsCoords.length = s.text.length ∧ t.glyphsTexCoords.length = s.text.length := by
  cases hf : s.font with
  | none => simp [recalculate, hv, hf] at h
  | some font =>
    rw [recalculate_eq s font hv hf] at h
    split at h
    · exact absurd h (by simp)
    · obtain ⟨_, _, _, h4, h5⟩ := glyphsLoop_frame _ _ _ _ _ _ _ h
      simp only [loopEntryState, List.length_replicate] at h4 h5
      exact ⟨h4, h5⟩

/-! ## Text and cursor under the mutators -/

theorem toUInt_of_nonneg (c : Int) (h0 : 0 ≤ c) (h1 : c < 2 ^ 31) : toUInt c = c.toNat := by
  unfold toUInt
  have e : c % 2 ^ 32 = c := Int.emod_eq_of_lt h0 (by omega)
  rw [e]

theorem toUInt_neg_one : toUInt (-1) = 2 ^ 32 - 1 := by decide

theorem length_insert (text : List Nat) (c n : Nat) (h : n ≤ text.length) :
    (text.take n ++ c :: text.drop n).length = text.length + 1 := by
  simp only [List.length_append, List.length_take, List.length_cons, List.length_drop]
  omega

/-- What a mutator does before it calls `recalculate`. -/
theorem mutator_apply_cases (m : Mutator) (s t : TextArea) (h : m.apply s = some t) :
    t = s ∨ ∃ s1, recalculate s1 = some t ∧ s1.glyphsCoords = s.glyphsCoords ∧
      s1.glyphsTexCoords = s.glyphsTexCoords ∧
      (CursorInBounds s → s.text.length < 2 ^ 31 → m.fitsInt s →
        CursorInBounds s1 ∧ s1.text.length < 2 ^ 31) := by
  cases m with
  | setFont font =>
    exact Or.inr ⟨_, h, rfl, rfl, fun hc hl _ => ⟨hc, hl⟩⟩
  | setText text ticks =>
    simp only [Mutator.apply, TextArea.setText] at h
    refine Or.inr ⟨_, h, ?_, ?_, ?_⟩
    · split <;> rfl
    · split <;> rfl
    · intro hc _ hfit
      simp only [Mutator.fitsInt] at hfit
      simp only [CursorInBounds] at hc ⊢
      split
      · exact ⟨Or.inr ⟨le_refl _, by simp⟩, hfit⟩
      · rename_i hneg
        exact ⟨Or.inl (by simp only; omega), hfit⟩
  | setScreenCoords screenCoords =>
    exact Or.inr ⟨_, h, rfl, rfl, fun hc hl _ => ⟨hc, hl⟩⟩
  | setAlign align =>
    exact Or.inr ⟨_, h, rfl, rfl, fun hc hl _ => ⟨hc, hl⟩⟩
  | enableCursor enable ticks =>
    simp only [Mutator.apply, TextArea.enableCursor] at h
    refine Or.inr ⟨_, h, ?_, ?_, ?_⟩
    · split <;> rfl
    · split <;> rfl
    · intro _ hl _
      simp only [CursorInBounds]
      split
      · exact ⟨Or.inr ⟨le_refl _, by simp⟩, hl⟩
      · exact ⟨Or.inl rfl, hl⟩
  | appendCharacter c ticks =>
    simp only [Mutator.apply, TextArea.appendCharacter] at h
    split at h
    · split at h
      · exact absurd h (by simp)
      · rename_i h0 hle
        refine Or.inr ⟨_, h, rfl, rfl, ?_⟩
        intro _ _ hfit
        simp only [Mutator.fitsInt] at hfit
        have hn : s.cursorPos.toNat ≤ s.text.length := by omega
        simp only [CursorInBounds, length_insert s.text c _ hn]
        refine ⟨Or.inr ⟨by omega, ?_⟩, hfit⟩
        push_cast
        omega
    · simp only [Option.some.injEq] at h
      exact Or.inl h.symm
  | removeCharacter right ticks =>
    simp only [Mutator.apply, TextArea.removeCharacter] at h
    split at h
    · rename_i h0
      refine Or.inr ⟨_, h, ?_, ?_, ?_⟩
      · split
        · rfl
        · split <;> rfl
      · split
        · rfl
        · split <;> rfl
      · intro hc hl _
        have hc1 : s.cursorPos ≤ s.text.length := by
          rcases hc with hc | hc
          · omega
          · exact hc.2
        have hu : toUInt s.cursorPos = s.cursorPos.toNat :=
          toUInt_of_nonneg _ h0 (by omega)
        simp only [CursorInBounds]
        split
        · rename_i hr
          rw [hu] at hr
          simp only [List.length_eraseIdx]
          have : s.cursorPos.toNat < s.text.length := hr.2
          rw [if_pos this]
          exact ⟨Or.inr ⟨h0, by omega⟩, by omega⟩
        · split
          · rename_i hr
            simp only [List.length_eraseIdx]
            have : (s.cursorPos - 1).toNat < s.text.length := by omega
            rw [if_pos this]
            exact ⟨Or.inr ⟨by omega, by omega⟩, by omega⟩
          · exact ⟨Or.inr ⟨h0, hc1⟩, hl⟩
    · simp only [Option.some.injEq] at h
      exact Or.inl h.symm
  | moveCursor right ticks =>
    simp only [Mutator.apply, TextArea.moveCursor] at h
    refine Or.inr ⟨_, h, ?_, ?_, ?_⟩
    · split
      · split <;> rfl
      · split <;> rfl
    · split
      · split <;> rfl
      · split <;> rfl
    · intro hc hl _
      simp only [CursorInBounds] at hc ⊢
      split
      · split
        · rename_i hr
          refine ⟨?_, hl⟩
          rcases hc with hc | hc
          · exact Or.inr ⟨by simp only; omega, by simp only; omega⟩
          · have hu : toUInt s.cursorPos = s.cursorPos.toNat :=
              toUInt_of_nonneg _ hc.1 (by omega)
            rw [hu] at hr
            have hm : (s.cursorPos.toNat + 1) % 2 ^ 32 = s.cursorPos.toNat + 1 :=
              Nat.mod_eq_of_lt (by omega)
            rw [hm] at hr
            exact Or.inr ⟨by simp only; omega, by simp only; omega⟩
        · exact ⟨hc, hl⟩
      · split
        · rename_i hr
          refine ⟨Or.inr ⟨by simp only; omega, ?_⟩, hl⟩
          rcases hc with hc | hc
          · simp only; omega
          · simp only; omega
        · exact ⟨hc, hl⟩

theorem reachable_cursorInBounds (s : TextArea) (h : Reachable s) :
    CursorInBounds s ∧ s.text.length < 2 ^ 31 := by
  induction h with
  | default cursorTicks => exact ⟨by unfold CursorInBounds; exact Or.inl rfl, by simp [mkDefault]⟩
  | withArgs font text screenCoords align color cursorTicks s hlen hs =>
    have hf := recalculate_frame _ _ hs
    refine ⟨?_, ?_⟩
    · unfold CursorInBounds
      rw [hf.cursorPos]
      exact Or.inl rfl
    · rw [hf.text]
      exact hlen
  | step m s s1 _ hfit hs ih =>
    rcases mutator_apply_cases m s s1 hs with h | ⟨s2, hr, _, _, hinv⟩
    · rw [h]; exact ih
    · have hf := recalculate_frame _ _ hr
      have := hinv ih.1 ih.2 hfit
      simp only [CursorInBounds, hf.cursorPos, hf.text]
      exact this

theorem reachable_lengths (s : TextArea) (h : Reachable s) :
    s.glyphsCoords.length = s.glyphsTexCoords.length ∧
      (s.screenCoords.isValid → s.glyphsCoords.length = s.text.length) := by
  have key : ∀ s1 t : TextArea, s1.glyphsCoords.length = s1.glyphsTexCoords.length →
      recalculate s1 = some t →
      t.glyphsCoords.length = t.glyphsTexCoords.length ∧
        (t.screenCoords.isValid → t.glyphsCoords.length = t.text.length) := by
    intro s1 t hl hr
    have hf := recalculate_frame _ _ hr
    by_cases hv : s1.screenCoords.isValid
    · obtain ⟨h1, h2⟩ := recalculate_lengths s1 t hv hr
      rw [hf.text]
      exact ⟨h1.trans h2.symm, fun _ => h1⟩
    · rw [recalculate_of_invalid s1 hv] at hr
      simp only [Option.some.injEq] at hr
      subst hr
      exact ⟨hl, fun hv1 => absurd hv1 hv⟩
  induction h with
  | default cursorTicks => exact ⟨rfl, fun _ => rfl⟩
  | withArgs font text screenCoords align color cursorTicks s hlen hs =>
    exact key _ _ rfl hs
  | step m s s1 _ hfit hs ih =>
    rcases mutator_apply_cases m s s1 hs with h | ⟨s2, hr, hg, hgt, _⟩
    · rw [h]; exact ih
    · exact key _ _ (by rw [hg, hgt]; exact ih.1) hr

/-! ## Claims on text, cursor and vector lengths -/

/-- C7. A degenerate viewport leaves the layout untouched: when `screenCoords`
is invalid (zero or negative width or height), `recalculate` returns with the
whole state, in particular `glyphsCoords`, `glyphsTexCoords`, `drawArea`,
`startInternalPos` and `startRenderPos`, exactly as before the call. -/
theorem recalculate_degenerate_untouched (s : TextArea) (h : ¬ s.screenCoords.isValid) :
    recalculate s = some s ∧
      ∀ t, recalculate s = some t →
        t.glyphsCoords = s.glyphsCoords ∧ t.glyphsTexCoords = s.glyphsTexCoords ∧
        t.drawArea = s.drawArea ∧ t.startInternalPos = s.startInternalPos ∧
        t.startRenderPos = s.startRenderPos := by
  have e := recalculate_of_invalid s h
  refine ⟨e, fun t ht => ?_⟩
  rw [e] at ht
  simp only [Option.some.injEq] at ht
  subst ht
  exact ⟨rfl, rfl, rfl, rfl, rfl⟩

/-- C7, at a viewport of width zero that holds a previous layout of two
glyphs. -/
theorem recalculate_degenerate_untouched_witness :
    ¬ zeroWidthArea.screenCoords.isValid ∧
      zeroWidthArea.glyphsCoords = [⟨0, 0, 9, 9⟩, ⟨10, 0, 19, 9⟩] ∧
      recalculate zeroWidthArea = some zeroWidthArea :=
  ⟨by decide, rfl, (recalculate_degenerate_untouched zeroWidthArea (by decide)).1⟩

/-- C9. Output length after a relayout: with a non-degenerate `screenCoords`, a
font, and a position function that returns one position per character,
`recalculate` returns whenever the reads of the scroll adjustment are in
bounds, and whenever it returns both `glyphsCoords` and `glyphsTexCoords` have
the length of the text (which is unchanged). -/
theorem recalculate_output_lengths (s : TextArea) (font : Font)
    (hv : s.screenCoords.isValid) (hf : s.font = some font)
    (hpos : (font.calculateGlyphsPositions s.text s.align).1.length = s.text.length) :
    (scrollReadsInBounds s → ∃ t, recalculate s = some t) ∧
      ∀ t, recalculate s = some t →
        t.text = s.text ∧ t.glyphsCoords.length = s.text.length ∧
        t.glyphsTexCoords.length = s.text.length := by
  refine ⟨fun hb => recalculate_returns s font hv hf (by omega) hb, fun t ht => ?_⟩
  exact ⟨(recalculate_frame s t ht).text, recalculate_lengths s t hv ht⟩

/-- C9, at the two-glyph text "AB" with the cursor at its end. -/
theorem recalculate_output_lengths_witness :
    cursorAtEndArea.screenCoords.isValid ∧
      (scrollReadsInBounds cursorAtEndArea → ∃ t, recalculate cursorAtEndArea = some t) ∧
      ∀ t, recalculate cursorAtEndArea = some t →
        t.text = [65, 66] ∧ t.glyphsCoords.length = 2 ∧ t.glyphsTexCoords.length = 2 :=
  ⟨by decide, recalculate_output_lengths cursorAtEndArea (lineFont (fun _ => 10) 10 0)
    (by decide) rfl (by decide)⟩

/-- C8. Cursor bounds invariant: in every state reachable from either
constructor through the public mutators, `cursorPos == -1` or
`0 <= cursorPos <= text.length()`. -/
theorem cursor_bounds_invariant (s : TextArea) (h : Reachable s) :
    s.cursorPos = -1 ∨ (0 ≤ s.cursorPos ∧ s.cursorPos ≤ s.text.length) :=
  (reachable_cursorInBounds s h).1

/-- C8, at the state reached by the five-argument constructor followed by
`enableCursor(true)`. -/
theorem cursor_bounds_invariant_witness :
    Reachable cursorArea ∧
      (cursorArea.cursorPos = -1 ∨
        (0 ≤ cursorArea.cursorPos ∧ cursorArea.cursorPos ≤ cursorArea.text.length)) :=
  have hr : Reachable cursorArea :=
    Reachable.step (Mutator.enableCursor true 3) laidOutArea cursorArea
      (Reachable.withArgs (some (lineFont (fun _ => 10) 10 0)) [65, 66] (Rect.ofXYWH 0 0 50 10)
        ALIGN_TOP_LEFT Color.white 0 laidOutArea (by decide) rfl)
      (by simp [Mutator.fitsInt]) rfl
  ⟨hr, cursor_bounds_invariant cursorArea hr⟩

/-- C2, as the code has it. In every state reachable from either constructor
through the public mutators, `glyphsCoords` and `glyphsTexCoords` have the same
length, and that length is `text.length()` whenever `screenCoords` is valid. -/
theorem layout_lengths_invariant (s : TextArea) (h : Reachable s) :
    s.glyphsCoords.length = s.glyphsTexCoords.length ∧
      (s.screenCoords.isValid → s.glyphsCoords.length = s.text.length) :=
  reachable_lengths s h

/-- C2, as the code has it, at the state reached by the five-argument
constructor. -/
theorem layout_lengths_invariant_witness :
    Reachable laidOutArea ∧ laidOutArea.glyphsCoords.length = laidOutArea.glyphsTexCoords.length ∧
      (laidOutArea.screenCoords.isValid →
        laidOutArea.glyphsCoords.length = laidOutArea.text.length) :=
  have hr : Reachable laidOutArea :=
    Reachable.withArgs (some (lineFont (fun _ => 10) 10 0)) [65, 66] (Rect.ofXYWH 0 0 50 10)
      ALIGN_TOP_LEFT Color.white 0 laidOutArea (by decide) rfl
  ⟨hr, layout_lengths_invariant laidOutArea hr⟩

/-- C2 fails as stated: after `TextArea(font, "", Rect(0, 0, 0, 10), ...)` and
`setText("A")` the viewport is degenerate, `recalculate` has returned early both
times, and the vectors have length 0 while the text has length 1. -/
theorem layout_lengths_stale_counterexample :
    Reachable staleArea ∧ staleArea.glyphsCoords.length = 0 ∧
      staleArea.glyphsTexCoords.length = 0 ∧ staleArea.text.length = 1 :=
  ⟨Reachable.step (Mutator.setText [65] 0) { staleArea with text := [] } staleArea
      (Reachable.withArgs (some (lineFont (fun _ => 10) 10 0)) [] (Rect.ofXYWH 0 0 0 10)
        ALIGN_TOP_LEFT Color.white 0 { staleArea with text := [] } (by decide) rfl)
      (by simp [Mutator.fitsInt]) rfl,
    rfl, rfl, rfl⟩

/-- C3, the code at the failing input: with text "AB" and the cursor at its end
(`cursorPos == 2 == text.length()`), `removeCharacter(true)` erases the last
character and moves the cursor back, as a backspace does. -/
theorem removeCharacter_right_at_end_erases :
    (removeCharacter true 7 cursorAtEndArea).map (fun t => (t.text, t.cursorPos))
      = some ([65], 1) := by
  decide

/-- C4, the code at the failing input: with the cursor disabled
(`cursorPos == -1`) `moveCursor(true)` sets `cursorPos` to 0, because
`(uint)m_cursorPos + 1` wraps to 0; `appendCharacter`, `removeCharacter` and
`moveCursor(false)` leave text and cursor as they are. -/
theorem moveCursor_right_enables_cursor :
    laidOutArea.cursorPos = -1 ∧
      (moveCursor true 7 laidOutArea).map (fun t => (t.text, t.cursorPos))
        = some ([65, 66], 0) ∧
      (moveCursor false 7 laidOutArea).map (fun t => (t.text, t.cursorPos))
        = some ([65, 66], -1) ∧
      (appendCharacter 67 7 laidOutArea).map (fun t => (t.text, t.cursorPos))
        = some ([65, 66], -1) ∧
      (removeCharacter true 7 laidOutArea).map (fun t => (t.text, t.cursorPos))
        = some ([65, 66], -1) ∧
      (removeCharacter false 7 laidOutArea).map (fun t => (t.text, t.cursorPos))
        = some ([65, 66], -1) := by
  decide

/-! ## draw -/

theorem drawGlyphs_returns (s : TextArea) (n : Nat) : ∀ i : Nat,
    i + n ≤ s.glyphsCoords.length → i + n ≤ s.glyphsTexCoords.length →
    ∃ cmds, drawGlyphs s i n = some cmds ∧ drawsCursor cmds = false := by
  induction n with
  | zero => intro i _ _; exact ⟨[], rfl, rfl⟩
  | succ n ih =>
    intro i h1 h2
    obtain ⟨cmds, hc, hd⟩ := ih (i + 1) (by omega) (by omega)
    have hi1 : i < s.glyphsCoords.length := by omega
    have hi2 : i < s.glyphsTexCoords.length := by omega
    refine ⟨DrawCmd.texturedRect s.glyphsCoords[i] s.glyphsTexCoords[i] s.color :: cmds, ?_, ?_⟩
    · simp only [drawGlyphs, List.getElem?_eq_getElem hi1, List.getElem?_eq_getElem hi2, hc]
    · simpa [drawsCursor] using hd

theorem cursorRect_returns (font : Font) (s : TextArea)
    (hgc : s.text.length ≤ s.glyphsCoords.length)
    (h0 : 0 ≤ s.cursorPos) (h1 : s.cursorPos ≤ s.text.length) :
    ∃ r, cursorRect font s = some r := by
  unfold cursorRect
  simp only
  by_cases hz : s.cursorPos = 0
  · simp only [hz, if_true]; exact ⟨_, rfl⟩
  · obtain ⟨g, hg⟩ := readAt_isSome s.glyphsCoords (s.cursorPos - 1) (by omega) (by omega)
    by_cases hlt : s.cursorPos < (s.text.length : Int)
    · obtain ⟨g1, hg1⟩ := readAt_isSome s.glyphsCoords s.cursorPos h0 (by omega)
      simp only [hz, if_false, hlt, if_true, hg1, hg]
      cases decide (g1.topLeft = s.drawArea.topLeft) <;> exact ⟨_, rfl⟩
    · simp only [hz, if_false, hlt, hg]
      exact ⟨_, rfl⟩

theorem draw_cases (s : TextArea) (font : Font) (ticks : Int) (hfont : s.font = some font)
    (hgc : s.text.length ≤ s.glyphsCoords.length)
    (hgt : s.text.length ≤ s.glyphsTexCoords.length)
    (hvis : s.cursorVisible = true) (h0 : 0 ≤ s.cursorPos)
    (h1 : s.cursorPos ≤ s.text.length) :
    ∃ cmds,
      (ticks - s.cursorTicks ≤ 500 → draw ticks s = some (s, cmds) ∧ drawsCursor cmds = true) ∧
      (500 < ticks - s.cursorTicks → ticks - s.cursorTicks < 1000 →
        draw ticks s = some (s, cmds) ∧ drawsCursor cmds = false) ∧
      (1000 ≤ ticks - s.cursorTicks →
        draw ticks s = some ({ s with cursorTicks := ticks }, cmds) ∧
          drawsCursor cmds = false) := by
  obtain ⟨cmds, hc, hd⟩ := drawGlyphs_returns s s.text.length 0 (by omega) (by omega)
  obtain ⟨r, hr⟩ := cursorRect_returns font s hgc h0 h1
  have hcond : s.cursorVisible = true ∧ s.cursorPos ≥ 0 ∧ s.cursorPos ≤ (s.text.length : Int) :=
    ⟨hvis, h0, h1⟩
  by_cases hA : ticks - s.cursorTicks ≤ 500
  · refine ⟨cmds ++ [DrawCmd.filledRect r s.color], fun _ => ⟨?_, ?_⟩, fun h => ?_, fun h => ?_⟩
    · simp only [draw, hfont, hc, hcond, and_self, if_true, hA, hr]
    · simp [drawsCursor]
    · omega
    · omega
  · refine ⟨cmds, fun h => absurd h hA, fun _ hlt => ⟨?_, hd⟩, fun hge => ⟨?_, hd⟩⟩
    · have hB : ¬ ticks - s.cursorTicks ≥ 2 * 500 := by omega
      simp only [draw, hfont, hc, hcond, and_self, if_true, hA, if_false, hB]
    · have hB : ticks - s.cursorTicks ≥ 2 * 500 := by omega
      simp only [draw, hfont, hc, hcond, and_self, if_true, hA, if_false, hB]

theorem draw_visible (s : TextArea) (font : Font) (ticks : Int) (hfont : s.font = some font)
    (hgc : s.text.length ≤ s.glyphsCoords.length)
    (hgt : s.text.length ≤ s.glyphsTexCoords.length)
    (hvis : s.cursorVisible = true) (h0 : 0 ≤ s.cursorPos)
    (h1 : s.cursorPos ≤ s.text.length) (ht : ticks - s.cursorTicks ≤ 500) :
    ∃ cmds, draw ticks s = some (s, cmds) ∧ drawsCursor cmds = true := by
  obtain ⟨cmds, h, _, _⟩ := draw_cases s font ticks hfont hgc hgt hvis h0 h1
  exact ⟨cmds, h ht⟩

theorem draw_hidden (s : TextArea) (font : Font) (ticks : Int) (hfont : s.font = some font)
    (hgc : s.text.length ≤ s.glyphsCoords.length)
    (hgt : s.text.length ≤ s.glyphsTexCoords.length)
    (hvis : s.cursorVisible = true) (h0 : 0 ≤ s.cursorPos)
    (h1 : s.cursorPos ≤ s.text.length) (ht : 500 < ticks - s.cursorTicks)
    (ht1 : ticks - s.cursorTicks < 1000) :
    ∃ cmds, draw ticks s = some (s, cmds) ∧ drawsCursor cmds = false := by
  obtain ⟨cmds, _, h, _⟩ := draw_cases s font ticks hfont hgc hgt hvis h0 h1
  exact ⟨cmds, h ht ht1⟩

theorem draw_reset (s : TextArea) (font : Font) (ticks : Int) (hfont : s.font = some font)
    (hgc : s.text.length ≤ s.glyphsCoords.length)
    (hgt : s.text.length ≤ s.glyphsTexCoords.length)
    (hvis : s.cursorVisible = true) (h0 : 0 ≤ s.cursorPos)
    (h1 : s.cursorPos ≤ s.text.length) (ht : 1000 ≤ ticks - s.cursorTicks) :
    ∃ cmds, draw ticks s = some ({ s with cursorTicks := ticks }, cmds) ∧
      drawsCursor cmds = false := by
  obtain ⟨cmds, _, _, h⟩ := draw_cases s font ticks hfont hgc hgt hvis h0 h1
  exact ⟨cmds, h ht⟩

/-- C5, as the code has it. With cursor drawing enabled, `cursorPos` valid and
`cursorTicks == 0`, successive `draw` calls at frame ticks 0, 499, 500, 501,
1000 draw the cursor on exactly the 1st, 2nd and 3rd calls (the bar is drawn
while `ticks - cursorTicks <= 500`, bound included); the call at tick 1000
draws no cursor and resets `cursorTicks` to 1000, and nothing else changes. -/
theorem cursor_blink_sequence (s : TextArea) (font : Font) (hfont : s.font = some font)
    (hgc : s.text.length ≤ s.glyphsCoords.length)
    (hgt : s.text.length ≤ s.glyphsTexCoords.length)
    (hvis : s.cursorVisible = true) (h0 : 0 ≤ s.cursorPos)
    (h1 : s.cursorPos ≤ s.text.length) (ht : s.cursorTicks = 0) :
    drawFrames [0, 499, 500, 501, 1000] s
      = some ({ s with cursorTicks := 1000 }, [true, true, true, false, false]) := by
  obtain ⟨c1, e1, d1⟩ := draw_visible s font 0 hfont hgc hgt hvis h0 h1 (by omega)
  obtain ⟨c2, e2, d2⟩ := draw_visible s font 499 hfont hgc hgt hvis h0 h1 (by omega)
  obtain ⟨c3, e3, d3⟩ := draw_visible s font 500 hfont hgc hgt hvis h0 h1 (by omega)
  obtain ⟨c4, e4, d4⟩ := draw_hidden s font 501 hfont hgc hgt hvis h0 h1 (by omega) (by omega)
  obtain ⟨c5, e5, d5⟩ := draw_reset s font 1000 hfont hgc hgt hvis h0 h1 (by omega)
  simp only [drawFrames, e1, e2, e3, e4, e5, d1, d2, d3, d4, d5]

/-- C5, as the code has it, at the text "AB" with the cursor at its end. -/
theorem cursor_blink_sequence_witness :
    drawFrames [0, 499, 500, 501, 1000] blinkingArea
      = some ({ blinkingArea with cursorTicks := 1000 }, [true, true, true, false, false]) :=
  cursor_blink_sequence blinkingArea (lineFont (fun _ => 10) 10 0) rfl (by decide) (by decide)
    rfl (by decide) (by decide) rfl

/-- C5 fails as stated: at the text "AB" with the cursor at its end, the five
calls show the cursor as visible, visible, visible, hidden, hidden, not as
visible, visible, hidden, hidden, visible. -/
theorem cursor_blink_counterexample :
    (drawFrames [0, 499, 500, 501, 1000] blinkingArea).map (fun r => (r.2, r.1.cursorTicks))
      = some ([true, true, true, false, false], 1000) ∧
    (drawFrames [0, 499, 500, 501, 1000] blinkingArea).map (fun r => r.2)
      ≠ some [true, true, false, false, true] := by
  decide

/-! ## Layout of one glyph -/

theorem alignGlyph_eq (screenCoords : Rect) (align : Nat) (textBoxSize : Size) (g : Rect) :
    alignGlyph screenCoords align textBoxSize g =
      g.translate (specAlignDx align screenCoords.width textBoxSize.width)
        (specAlignDy align screenCoords.height textBoxSize.height) := by
  unfold alignGlyph specAlignDx specAlignDy
  obtain ⟨a1, b1, a2, b2⟩ := g
  simp only [Rect.translate]
  split_ifs <;> simp

/-- A glyph whose aligned rectangle needs no clipping. -/
theorem layoutGlyph_inside (font : Font) (screenCoords : Rect) (align : Nat) (textBoxSize : Size)
    (pos : Point) (glyph : Nat) (a : Rect)
    (ha : a = alignGlyph screenCoords align textBoxSize
      (Rect.ofPointSize pos (font.glyphsSize glyph)))
    (hvalid : a.isValid)
    (hx1 : 0 ≤ a.x1) (hy1 : 0 ≤ a.y1)
    (hx2 : a.x2 ≤ screenCoords.width - 1) (hy2 : a.y2 ≤ screenCoords.height - 1) :
    layoutGlyph font screenCoords align textBoxSize ⟨0, 0⟩ pos glyph
      = some (a.translate screenCoords.x1 screenCoords.y1, font.glyphsTextureCoords glyph) := by
  unfold layoutGlyph
  simp only [← ha]
  obtain ⟨a1, b1, a2, b2⟩ := a
  obtain ⟨c1, d1, c2, d2⟩ := screenCoords
  simp only [Rect.isValid, Rect.width, Rect.height] at hvalid hx1 hy1 hx2 hy2
  have h1 : ¬ (b2 < 0 ∨ a2 < 0) := by omega
  simp only [Rect.bottom, Rect.right, h1, if_false, clipTopLeft, Rect.top, Rect.left,
    Int.not_lt.mpr hy1, Int.not_lt.mpr hx1, Rect.translate, Rect.topLeft, neg_zero, add_zero]
  have h2 : Rect.intersects ⟨c1, d1, c2, d2⟩ ⟨a1 + c1, b1 + d1, a2 + c1, b2 + d1⟩ := by
    simp only [Rect.intersects, Rect.isNull]
    split_ifs <;> omega
  have h3 : ¬ (b2 + d1 > d2) := by omega
  have h4 : ¬ (a2 + c1 > c2) := by omega
  simp only [h2, not_true_eq_false, if_false, clipBottomRight, Rect.bottom, Rect.right, h3, h4]

theorem alignGlyph_topLeft (screenCoords : Rect) (textBoxSize : Size) (g : Rect) :
    alignGlyph screenCoords ALIGN_TOP_LEFT textBoxSize g = g := by
  have h1 : ¬ hasFlag ALIGN_TOP_LEFT ALIGN_BOTTOM := by decide
  have h2 : ¬ hasFlag ALIGN_TOP_LEFT ALIGN_VERTICAL_CENTER := by decide
  have h3 : ¬ hasFlag ALIGN_TOP_LEFT ALIGN_RIGHT := by decide
  have h4 : ¬ hasFlag ALIGN_TOP_LEFT ALIGN_HORIZONTAL_CENTER := by decide
  simp only [alignGlyph, h1, h2, h3, h4, if_false]

/-- A glyph that the scroll offset puts at the right edge. -/
theorem layoutGlyph_scrolled (font : Font) (screenCoords : Rect) (textBoxSize : Size)
    (pos : Point) (glyph : Nat) (sx sy : Int) (hvalid : screenCoords.isValid)
    (hw1 : 1 ≤ (font.glyphsSize glyph).width)
    (hwW : (font.glyphsSize glyph).width ≤ screenCoords.width)
    (hh : 1 ≤ (font.glyphsSize glyph).height)
    (hsx : sx = (Rect.ofPointSize pos (font.glyphsSize glyph)).right - screenCoords.width + 1)
    (hsy1 : sy ≤ (Rect.ofPointSize pos (font.glyphsSize glyph)).bottom)
    (hsy2 : (Rect.ofPointSize pos (font.glyphsSize glyph)).top ≤ sy + screenCoords.height - 1) :
    ∃ gt, layoutGlyph font screenCoords ALIGN_TOP_LEFT textBoxSize ⟨sx, sy⟩ pos glyph = some gt ∧
      gt.1.right = screenCoords.right := by
  unfold layoutGlyph
  simp only [alignGlyph_topLeft]
  obtain ⟨c1, d1, c2, d2⟩ := screenCoords
  obtain ⟨px, py⟩ := pos
  generalize font.glyphsSize glyph = sz at *
  obtain ⟨w, h⟩ := sz
  simp only [Rect.ofPointSize, Rect.right, Rect.bottom, Rect.top, Rect.width, Rect.height,
    Rect.isValid] at *
  have h1 : ¬ (py + h - 1 < sy ∨ px + w - 1 < sx) := by omega
  have hl : ¬ (px < sx) := by omega
  simp only [h1, if_false, clipTopLeft, Rect.top, Rect.left, Rect.setTop, Rect.setLeft]
  by_cases ht : py < sy
  · simp only [ht, if_true, hl, if_false, Rect.translate, Rect.topLeft]
    have h2 : Rect.intersects ⟨c1, d1, c2, d2⟩
        ⟨px + -sx + c1, sy + -sy + d1, px + w - 1 + -sx + c1, py + h - 1 + -sy + d1⟩ := by
      simp only [Rect.intersects, Rect.isNull]
      split_ifs <;> omega
    simp only [h2, not_true_eq_false, if_false, clipBottomRight, Rect.bottom, Rect.right,
      Rect.setBottom, Rect.setRight]
    split_ifs <;> exact ⟨_, rfl, by first | rfl | (simp only [Rect.right]; omega)⟩
  · simp only [ht, if_false, hl, Rect.translate, Rect.topLeft]
    have h2 : Rect.intersects ⟨c1, d1, c2, d2⟩
        ⟨px + -sx + c1, py + -sy + d1, px + w - 1 + -sx + c1, py + h - 1 + -sy + d1⟩ := by
      simp only [Rect.intersects, Rect.isNull]
      split_ifs <;> omega
    simp only [h2, not_true_eq_false, if_false, clipBottomRight, Rect.bottom, Rect.right,
      Rect.setBottom, Rect.setRight]
    split_ifs <;> exact ⟨_, rfl, by first | rfl | (simp only [Rect.right]; omega)⟩

/-! ## Entries of the vectors after recalculate -/

theorem adjustStartInternalPos_disabled (font : Font) (s : TextArea) (glyphsPositions : List Point)
    (h : s.cursorPos < 0 ∨ s.text = []) :
    adjustStartInternalPos font s glyphsPositions = some ⟨0, 0⟩ := by
  unfold adjustStartInternalPos
  have hc : ¬ (s.cursorPos ≥ 0 ∧ (s.text.length : Int) > 0) := by
    rcases h with h | h
    · omega
    · rw [h]; simp
  simp only [hc, if_false]

/-- A call of `recalculate` that returns has computed the scroll offset of the
final state and run the glyph loop from `loopEntryState`. -/
theorem recalculate_loop (s t : TextArea) (font : Font) (hv : s.screenCoords.isValid)
    (hf : s.font = some font) (h : recalculate s = some t) :
    adjustStartInternalPos font s (font.calculateGlyphsPositions s.text s.align).1
        = some t.startInternalPos ∧
      glyphsLoop font (font.calculateGlyphsPositions s.text s.align).1
        (font.calculateGlyphsPositions s.text s.align).2 s.text 0
        (loopEntryState font s t.startInternalPos) = some t := by
  rw [recalculate_eq s font hv hf] at h
  split at h
  · exact absurd h (by simp)
  · rename_i p hp
    have he : t.startInternalPos = p := (glyphsLoop_frame _ _ _ _ _ _ _ h).2.2.1
    rw [he]
    exact ⟨hp, h⟩

theorem recalculate_entry (s t : TextArea) (font : Font) (hv : s.screenCoords.isValid)
    (hf : s.font = some font) (h : recalculate s = some t) (j glyph : Nat)
    (hj : s.text[j]? = some glyph) :
    (glyph < 32 → t.glyphsCoords[j]? = some Rect.default ∧
      t.glyphsTexCoords[j]? = some Rect.default) ∧
    (32 ≤ glyph → ∃ pos, (font.calculateGlyphsPositions s.text s.align).1[j]? = some pos ∧
      (layoutGlyph font s.screenCoords s.align (font.calculateGlyphsPositions s.text s.align).2
          t.startInternalPos pos glyph = none →
        t.glyphsCoords[j]? = some Rect.default ∧ t.glyphsTexCoords[j]? = some Rect.default) ∧
      (∀ gt, layoutGlyph font s.screenCoords s.align
          (font.calculateGlyphsPositions s.text s.align).2 t.startInternalPos pos glyph = some gt →
        t.glyphsCoords[j]? = some gt.1 ∧ t.glyphsTexCoords[j]? = some gt.2)) := by
  obtain ⟨_, hl⟩ := recalculate_loop s t font hv hf h
  have hjl : j < s.text.length := by
    by_contra hn
    rw [List.getElem?_eq_none (by omega)] at hj
    exact absurd hj (by simp)
  have key := glyphsLoop_entry _ _ _ _ _ _ _ hl j glyph hj
    (by simpa [loopEntryState] using hjl)
  simp only [Nat.zero_add, loopEntryState, List.getElem?_replicate, hjl, if_true,
    List.length_replicate] at key
  obtain ⟨k1, k2⟩ := key
  refine ⟨k1, fun h32 => ?_⟩
  obtain ⟨pos, hp, k3, k4⟩ := k2 h32
  exact ⟨pos, hp, k3, fun gt hgt => ⟨(k4 gt hgt).1, (k4 gt hgt).2 trivial⟩⟩

/-- C10. Alignment translation: with the cursor disabled (scroll offset (0,0)),
for every non-control glyph `i` whose aligned rectangle is a valid rectangle
that lies wholly inside the viewport (both its corners are in
`Rect((0,0), screenCoords.size())`), `recalculate` returns and
`glyphsCoords[i].topLeft() == screenCoords.topLeft() + position_i + (dx, dy)`,
with `(dx, dy)` the offsets `specAlignDx`, `specAlignDy` of the specification. -/
theorem alignment_translation (s : TextArea) (font : Font) (i glyph : Nat) (pos : Point)
    (hv : s.screenCoords.isValid) (hf : s.font = some font)
    (hcur : s.cursorPos < 0)
    (hlen : s.text.length ≤ (font.calculateGlyphsPositions s.text s.align).1.length)
    (hg : s.text[i]? = some glyph) (h32 : 32 ≤ glyph)
    (hp : (font.calculateGlyphsPositions s.text s.align).1[i]? = some pos)
    (hvalid : (specAlignedRect s font pos glyph).isValid)
    (htl : (Rect.ofPointSize ⟨0, 0⟩ s.screenCoords.size).contains
      (specAlignedRect s font pos glyph).topLeft)
    (hbr : (Rect.ofPointSize ⟨0, 0⟩ s.screenCoords.size).contains
      (specAlignedRect s font pos glyph).bottomRight) :
    ∃ t, recalculate s = some t ∧ t.startInternalPos = ⟨0, 0⟩ ∧
      (t.glyphsCoords[i]?).map Rect.topLeft =
        some ⟨s.screenCoords.topLeft.x + pos.x + specAlignDx s.align s.screenCoords.width
                (font.calculateGlyphsPositions s.text s.align).2.width,
              s.screenCoords.topLeft.y + pos.y + specAlignDy s.align s.screenCoords.height
                (font.calculateGlyphsPositions s.text s.align).2.height⟩ := by
  unfold specAlignedRect at hvalid htl hbr
  obtain ⟨t, ht⟩ := recalculate_returns s font hv hf hlen (Or.inl hcur)
  obtain ⟨hadj, _⟩ := recalculate_loop s t font hv hf ht
  rw [adjustStartInternalPos_disabled font s _ (Or.inl hcur)] at hadj
  simp only [Option.some.injEq] at hadj
  obtain ⟨pos1, hp1, _, hsome⟩ := (recalculate_entry s t font hv hf ht i glyph hg).2 h32
  rw [hp] at hp1
  simp only [Option.some.injEq] at hp1
  subst hp1
  rw [← hadj] at hsome
  have hlay := layoutGlyph_inside font s.screenCoords s.align
    (font.calculateGlyphsPositions s.text s.align).2 pos glyph _ rfl
  rw [alignGlyph_eq] at hlay
  simp only [Rect.ofPointSize, Rect.translate, Rect.isValid, Rect.contains, Rect.topLeft,
    Rect.bottomRight, Rect.size] at hvalid htl hbr hlay
  have hw : 0 ≤ s.screenCoords.width := by
    simp only [Rect.isValid, Rect.width] at hv ⊢; omega
  have hh : 0 ≤ s.screenCoords.height := by
    simp only [Rect.isValid, Rect.height] at hv ⊢; omega
  have hc1 : ¬ (0 + s.screenCoords.width - 1 < 0 - 1) := by omega
  have hc2 : ¬ (0 + s.screenCoords.height - 1 < 0 - 1) := by omega
  simp only [hc1, hc2, if_false] at htl hbr
  have hres := hsome _ (hlay (by omega) (by omega) (by omega) (by omega) (by omega))
  refine ⟨t, ht, hadj.symm, ?_⟩
  rw [hres.1]
  simp only [Option.map_some', Rect.topLeft, Rect.translate, Rect.ofPointSize,
    Option.some.injEq, Point.mk.injEq]
  constructor <;> omega

/-- C10, at the text "A" aligned HORIZONTAL_CENTER and BOTTOM in a 50x30
viewport at (5, 7), with a 10x10 glyph and a text box of the size of the glyph:
the glyph is translated by ((50 - 10) / 2, 30 - 10) = (20, 20). -/
theorem alignment_translation_witness :
    ∃ t, recalculate centeredArea = some t ∧ t.startInternalPos = ⟨0, 0⟩ ∧
      (t.glyphsCoords[0]?).map Rect.topLeft = some ⟨5 + 0 + 20, 7 + 0 + 20⟩ :=
  alignment_translation centeredArea (lineFont (fun _ => 10) 10 0) 0 65 ⟨0, 0⟩
    (by decide) rfl (by decide) (by decide) rfl (by decide) rfl (by decide) (by decide)
    (by decide)

/-! ## Scroll to the cursor -/

theorem adjustStartInternalPos_right (font : Font) (s : TextArea) (glyphsPositions : List Point)
    (glyph : Nat) (pos : Point)
    (hcur : s.startRenderPos < s.cursorPos) (h1 : 1 ≤ s.cursorPos)
    (hg : s.text[(s.cursorPos - 1).toNat]? = some glyph)
    (hp : glyphsPositions[(s.cursorPos - 1).toNat]? = some pos) :
    adjustStartInternalPos font s glyphsPositions =
      some (if ¬ (virtualViewport s).contains (naturalRect font pos glyph).topLeft ∨
              ¬ (virtualViewport s).contains (naturalRect font pos glyph).bottomRight then
          ⟨max ((naturalRect font pos glyph).right - s.screenCoords.width + 1) 0,
            max ((naturalRect font pos glyph).bottom - s.screenCoords.height) 0⟩
        else s.startInternalPos) := by
  have hlt : (s.cursorPos - 1).toNat < s.text.length := by
    by_contra hn
    rw [List.getElem?_eq_none (by omega)] at hg
    exact absurd hg (by simp)
  have hc : s.cursorPos ≥ 0 ∧ (s.text.length : Int) > 0 := by omega
  have hn : ¬ s.startRenderPos > s.cursorPos := by omega
  have hgt : s.cursorPos > s.startRenderPos := hcur
  have hvw : (Rect.ofPointSize s.startInternalPos s.screenCoords.size).width
      = s.screenCoords.width := by
    simp only [Rect.ofPointSize, Rect.width, Rect.size]; omega
  have hvh : (Rect.ofPointSize s.startInternalPos s.screenCoords.size).height
      = s.screenCoords.height := by
    simp only [Rect.ofPointSize, Rect.height, Rect.size]; omega
  unfold adjustStartInternalPos
  simp only [hc, and_self, if_true, hn, if_false, hgt,
    readChar_of_lt s.text (s.cursorPos - 1) (by omega) (by omega), hg,
    readAt_eq_getElem? glyphsPositions (s.cursorPos - 1) (by omega), hp, hvw, hvh,
    virtualViewport, naturalRect]
  split <;> rfl

/-- Scroll-to-cursor where the glyph before the cursor stays on the rows of the
viewport. With TOP_LEFT alignment and the cursor enabled, in every state in
which `cursorPos > startRenderPos`, glyph `cursorPos-1` is not a control
character, its natural rectangle is not contained in the virtual viewport
`Rect(startInternalPos, screenCoords.size())`, its width is at most the
viewport width `W` and its natural right edge is at least `W-1`, and moreover
the glyph is at least 1 wide and 1 high, its natural bottom edge is not
negative, and it is at least 2 high or its natural top edge is above the
viewport height: `recalculate` returns, sets
`startInternalPos.x = (natural right edge) - W + 1`, and the final
`glyphsCoords[cursorPos-1].right()` equals `screenCoords.right()`. -/
theorem scroll_right_aligns_glyph (s : TextArea) (font : Font) (glyph : Nat) (pos : Point)
    (hv : s.screenCoords.isValid) (hf : s.font = some font)
    (halign : s.align = ALIGN_TOP_LEFT)
    (hlen : s.text.length ≤ (font.calculateGlyphsPositions s.text s.align).1.length)
    (hcur : s.startRenderPos < s.cursorPos) (h1 : 1 ≤ s.cursorPos)
    (hg : s.text[(s.cursorPos - 1).toNat]? = some glyph) (h32 : 32 ≤ glyph)
    (hp : (font.calculateGlyphsPositions s.text s.align).1[(s.cursorPos - 1).toNat]? = some pos)
    (hnot : ¬ ((virtualViewport s).contains (naturalRect font pos glyph).topLeft ∧
      (virtualViewport s).contains (naturalRect font pos glyph).bottomRight))
    (hwW : (font.glyphsSize glyph).width ≤ s.screenCoords.width)
    (hright : s.screenCoords.width - 1 ≤ (naturalRect font pos glyph).right)
    (hw1 : 1 ≤ (font.glyphsSize glyph).width) (hh : 1 ≤ (font.glyphsSize glyph).height)
    (hrow : 2 ≤ (font.glyphsSize glyph).height ∨
      (naturalRect font pos glyph).top ≤ s.screenCoords.height - 1)
    (hbot : 0 ≤ (naturalRect font pos glyph).bottom) :
    ∃ t, recalculate s = some t ∧
      t.startInternalPos.x = (naturalRect font pos glyph).right - s.screenCoords.width + 1 ∧
      (t.glyphsCoords[(s.cursorPos - 1).toNat]?).map Rect.right = some s.screenCoords.right := by
  have hlt : (s.cursorPos - 1).toNat < s.text.length := by
    by_contra hn
    rw [List.getElem?_eq_none (by omega)] at hg
    exact absurd hg (by simp)
  obtain ⟨t, ht⟩ := recalculate_returns s font hv hf hlen
    (Or.inr (Or.inr (Or.inr (Or.inr ⟨hcur, h1, by omega⟩))))
  obtain ⟨hadj, _⟩ := recalculate_loop s t font hv hf ht
  rw [adjustStartInternalPos_right font s _ glyph pos hcur h1 hg hp] at hadj
  have hnot1 : ¬ (virtualViewport s).contains (naturalRect font pos glyph).topLeft ∨
      ¬ (virtualViewport s).contains (naturalRect font pos glyph).bottomRight := by
    by_contra hcon
    exact hnot ⟨by_contra fun h => hcon (Or.inl h), by_contra fun h => hcon (Or.inr h)⟩
  simp only [hnot1, if_true, Option.some.injEq] at hadj
  have hH : 1 ≤ s.screenCoords.height := by
    simp only [Rect.isValid, Rect.height] at hv ⊢; omega
  have hsx : t.startInternalPos.x
      = (naturalRect font pos glyph).right - s.screenCoords.width + 1 := by
    rw [← hadj]
    exact max_eq_left (by omega)
  have hsy : t.startInternalPos.y = max ((naturalRect font pos glyph).bottom
      - s.screenCoords.height) 0 := by
    rw [← hadj]
  obtain ⟨pos1, hp1, _, hsome⟩ := (recalculate_entry s t font hv hf ht _ glyph hg).2 h32
  rw [hp] at hp1
  simp only [Option.some.injEq] at hp1
  subst hp1
  obtain ⟨gt, hgt, hr⟩ := layoutGlyph_scrolled font s.screenCoords
    (font.calculateGlyphsPositions s.text s.align).2 pos glyph t.startInternalPos.x
    t.startInternalPos.y hv hw1 hwW hh hsx
    (by rw [hsy]; exact max_le (by unfold naturalRect at hbot ⊢; omega) hbot)
    (by
      rw [hsy]
      unfold naturalRect at hrow ⊢
      generalize font.glyphsSize glyph = sz at hrow hh ⊢
      simp only [Rect.ofPointSize, Rect.top, Rect.bottom] at hrow ⊢
      omega)
  rw [halign] at hsome
  refine ⟨t, ht, hsx, ?_⟩
  rw [(hsome gt hgt).1, Option.map_some', hr]

/-- Scroll-to-cursor at six 10x10 glyphs in a 50x10 viewport with the cursor
moved behind the sixth glyph. -/
theorem scroll_right_aligns_glyph_witness :
    ∃ t, recalculate scrollingArea = some t ∧ t.startInternalPos.x = 59 - 50 + 1 ∧
      (t.glyphsCoords[5]?).map Rect.right = some 49 :=
  scroll_right_aligns_glyph scrollingArea (lineFont (fun _ => 10) 10 0) 65 ⟨50, 0⟩
    (by decide) rfl rfl (by decide) (by decide) (by decide) (by decide) (by decide) (by decide)
    (by decide) (by decide) (by decide) (by decide) (by decide) (by decide) (by decide)

/-- C6, the code at the failing input: five glyphs 10 wide and 1 high on the
row of ordinate 10, TOP_LEFT, cursor behind the fifth glyph, viewport 50x10 at
scroll offset (0,0). Glyph 4 is no control character and has the natural
rectangle (40,10)-(49,10), which is not contained in the virtual viewport
(0,0)-(49,9); its width 10 is at most 50 and its right edge 49 is `W-1`.
`recalculate` takes the scroll-right branch and sets the scroll offset to
(0,0): x is `49 - 50 + 1`, y is `max(10 - 10, 0)`, without the `+ 1` that x
has. The glyph stays on the row below the viewport and `glyphsCoords[4]` is the
default rectangle, whose right edge is -1 and not `screenCoords.right() == 49`.
With the offset (0,1) that `bottom - height + 1` gives, the same glyph is laid
out on (40,9)-(49,9), its right edge on 49. The state is the one in which
`setScreenCoords(Rect(0, 0, 50, 10))` calls `recalculate` after the
constructor with a 50x20 viewport, `enableCursor(true)` and five
`moveCursor(true)`. -/
theorem scroll_right_snap_culls_glyph :
    shortViewportArea.align = ALIGN_TOP_LEFT ∧
    shortViewportArea.startRenderPos < shortViewportArea.cursorPos ∧
    shortViewportArea.text[4]? = some 65 ∧
    naturalRect (lineFont (fun _ => 10) 1 10) ⟨40, 10⟩ 65 = ⟨40, 10, 49, 10⟩ ∧
    virtualViewport shortViewportArea = ⟨0, 0, 49, 9⟩ ∧
    ¬ (virtualViewport shortViewportArea).contains ⟨49, 10⟩ ∧
    shortViewportArea.screenCoords.right = 49 ∧
    (recalculate shortViewportArea).map
        (fun t => (t.startInternalPos, (t.glyphsCoords[4]?).map Rect.right))
      = some (⟨0, 0⟩, some (-1)) ∧
    (layoutGlyph (lineFont (fun _ => 10) 1 10) shortViewportArea.screenCoords ALIGN_TOP_LEFT
        ⟨50, 1⟩ ⟨0, 10 - 10 + 1⟩ ⟨40, 10⟩ 65).map (fun gt => gt.1) = some ⟨40, 9, 49, 9⟩ ∧
    ((mkWith (some (lineFont (fun _ => 10) 1 10)) [65, 65, 65, 65, 65] (Rect.ofXYWH 0 0 50 20)
        ALIGN_TOP_LEFT Color.white 0).bind
        (runMutators (moveRightCalls 5 ++ [.setScreenCoords (Rect.ofXYWH 0 0 50 10)]))).map
        (fun t => (t.cursorPos, t.startInternalPos, (t.glyphsCoords[4]?).map Rect.right,
          t.screenCoords.right)) = some (5, ⟨0, 0⟩, some (-1), 49) := by
  decide

/-! ## Idempotence -/

theorem width_ofPointSize (p : Point) (sz : Size) : (Rect.ofPointSize p sz).width = sz.width := by
  simp only [Rect.ofPointSize, Rect.width]; omega

theorem height_ofPointSize (p : Point) (sz : Size) :
    (Rect.ofPointSize p sz).height = sz.height := by
  simp only [Rect.ofPointSize, Rect.height]; omega

theorem loopEntryState_congr (font : Font) (s t : TextArea) (p : Point)
    (h : SameSettings s t) : loopEntryState font t p = loopEntryState font s p := by
  obtain ⟨h1, h2, h3, h4, h5, h6, h7, h8⟩ := h
  obtain ⟨f, text, sc, da, al, co, sip, cp, srp, ct, cv, gtc, gc⟩ := s
  obtain ⟨f1, text1, sc1, da1, al1, co1, sip1, cp1, srp1, ct1, cv1, gtc1, gc1⟩ := t
  simp only at h1 h2 h3 h4 h5 h6 h7 h8
  subst h1 h2 h3 h4 h5 h6 h7 h8
  rfl

theorem adjustStartInternalPos_again (font : Font) (s t : TextArea) (l : List Point)
    (h : SameSettings s t)
    (hadj : adjustStartInternalPos font s l = some t.startInternalPos)
    (hc : s.cursorPos < 0 ∨ s.text = [] ∨ t.startRenderPos = s.cursorPos ∨
      (s.startRenderPos < s.cursorPos ∧ t.startRenderPos < s.cursorPos) ∨
      (s.cursorPos < s.startRenderPos ∧ s.cursorPos < t.startRenderPos)) :
    adjustStartInternalPos font t l = some t.startInternalPos := by
  by_cases hen : s.cursorPos ≥ 0 ∧ (s.text.length : Int) > 0
  · unfold adjustStartInternalPos at hadj ⊢
    simp only [h.text, h.cursorPos, h.screenCoords, hen, and_self, if_true] at hadj ⊢
    have hne : s.text ≠ [] := by
      intro he; rw [he] at hen; simp at hen
    rcases hc with hc | hc | hc | hc | hc
    · omega
    · exact absurd hc hne
    · have h1 : ¬ t.startRenderPos > s.cursorPos := by omega
      have h2 : ¬ s.cursorPos > t.startRenderPos := by omega
      simp only [h1, h2, if_false]
    rotate_left
    · have h1 : t.startRenderPos > s.cursorPos := hc.2
      have h2 : s.startRenderPos > s.cursorPos := hc.1
      simp only [h1, h2, if_true] at hadj ⊢
      exact hadj
    · have h1 : ¬ t.startRenderPos > s.cursorPos := by omega
      have h2 : s.cursorPos > t.startRenderPos := hc.2
      have h3 : ¬ s.startRenderPos > s.cursorPos := by omega
      have h4 : s.cursorPos > s.startRenderPos := hc.1
      simp only [h1, h2, h3, h4, if_false, if_true] at hadj ⊢
      cases hch : readChar s.text (s.cursorPos - 1) with
      | none => simp [hch] at hadj
      | some glyph =>
        cases hps : readAt l (s.cursorPos - 1) with
        | none => simp [hch, hps] at hadj
        | some p =>
          simp only [hch, hps, width_ofPointSize, height_ofPointSize] at hadj ⊢
          split at hadj
          · split
            · exact hadj
            · rfl
          · rename_i hin
            simp only [Option.some.injEq] at hadj
            rw [← hadj]
            simp only [hin, if_false]
  · have e1 : adjustStartInternalPos font s l = some ⟨0, 0⟩ := by
      unfold adjustStartInternalPos
      simp only [hen, if_false]
    have e2 : adjustStartInternalPos font t l = some ⟨0, 0⟩ := by
      unfold adjustStartInternalPos
      simp only [h.text, h.cursorPos, hen, if_false]
    rw [e2, ← e1, hadj]

/-- A second `recalculate` returns the state the first one returned exactly when
its scroll adjustment (lines 103-124, read with the `startRenderPos` the first
call left) computes the scroll offset the first call left. -/
theorem recalculate_again_iff (s t : TextArea) (font : Font) (hv : s.screenCoords.isValid)
    (hf : s.font = some font) (h : recalculate s = some t) :
    recalculate t = some t ↔
      adjustStartInternalPos font t (font.calculateGlyphsPositions s.text s.align).1
        = some t.startInternalPos := by
  have hs := recalculate_frame s t h
  obtain ⟨_, hloop⟩ := recalculate_loop s t font hv hf h
  have hvt : t.screenCoords.isValid := by rw [hs.screenCoords]; exact hv
  have hft : t.font = some font := by rw [hs.font]; exact hf
  constructor
  · intro ht
    have k := (recalculate_loop t t font hvt hft ht).1
    rw [hs.text, hs.align] at k
    exact k
  · intro hadj
    rw [recalculate_eq t font hvt hft, hs.text, hs.align, hadj]
    simp only
    rw [loopEntryState_congr font s t _ hs]
    exact hloop

/-- C1, as the code has it. For a state with a non-degenerate `screenCoords` in
which `recalculate` returns the state `t`, a second call with text, font,
`screenCoords`, align and `cursorPos` unchanged returns `t` again, and so the
same `glyphsCoords` and `glyphsTexCoords`, provided the cursor is disabled, or
the text is empty, or the first call leaves `startRenderPos == cursorPos`, or
`startRenderPos < cursorPos` holds both before and after the first call, or
`startRenderPos > cursorPos` holds both before and after the first call. In
general the second call returns `t` exactly when its scroll adjustment computes
the scroll offset that the first call left. -/
theorem recalculate_idempotent (s t : TextArea) (hv : s.screenCoords.isValid)
    (h : recalculate s = some t) :
    ((s.cursorPos < 0 ∨ s.text = [] ∨ t.startRenderPos = s.cursorPos ∨
        (s.startRenderPos < s.cursorPos ∧ t.startRenderPos < s.cursorPos) ∨
        (s.cursorPos < s.startRenderPos ∧ s.cursorPos < t.startRenderPos)) →
      recalculate t = some t ∧
        ∀ u, recalculate t = some u →
          u.glyphsCoords = t.glyphsCoords ∧ u.glyphsTexCoords = t.glyphsTexCoords) ∧
    (∀ font, s.font = some font →
      (recalculate t = some t ↔
        adjustStartInternalPos font t (font.calculateGlyphsPositions s.text s.align).1
          = some t.startInternalPos)) := by
  refine ⟨fun hc => ?_, fun font hf => recalculate_again_iff s t font hv hf h⟩
  have key : recalculate t = some t := by
    cases hf : s.font with
    | none => simp [recalculate, hv, hf] at h
    | some font =>
      have hs := recalculate_frame s t h
      obtain ⟨hadj, _⟩ := recalculate_loop s t font hv hf h
      exact (recalculate_again_iff s t font hv hf h).mpr
        (adjustStartInternalPos_again font s t _ hs hadj hc)
  refine ⟨key, fun u hu => ?_⟩
  rw [key] at hu
  simp only [Option.some.injEq] at hu
  subst hu
  exact ⟨rfl, rfl⟩

/-- C1, as the code has it, at the state in which `enableCursor(true)` calls
`recalculate` after the constructor with the text "\nA": the cursor is at 0,
the first complete glyph is glyph 1 before and after the call, and every call
scrolls left to the cursor. -/
theorem recalculate_idempotent_witness :
    ((mkWith (some (lineFont (fun _ => 10) 10 0)) [10, 65] (Rect.ofXYWH 0 0 50 10)
        ALIGN_TOP_LEFT Color.white 0).bind (enableCursor true 0)).map
        (fun t => (t.cursorPos, t.startRenderPos, t.glyphsCoords))
      = some (scrollLeftArea.cursorPos, scrollLeftArea.startRenderPos,
          scrollLeftArea.glyphsCoords) ∧
    scrollLeftArea.cursorPos < scrollLeftArea.startRenderPos ∧
    ((scrollLeftArea.cursorPos < 0 ∨ scrollLeftArea.text = [] ∨
        scrollLeftArea.startRenderPos = scrollLeftArea.cursorPos ∨
        (scrollLeftArea.startRenderPos < scrollLeftArea.cursorPos ∧
          scrollLeftArea.startRenderPos < scrollLeftArea.cursorPos) ∨
        (scrollLeftArea.cursorPos < scrollLeftArea.startRenderPos ∧
          scrollLeftArea.cursorPos < scrollLeftArea.startRenderPos)) →
      recalculate scrollLeftArea = some scrollLeftArea ∧
        ∀ u, recalculate scrollLeftArea = some u →
          u.glyphsCoords = scrollLeftArea.glyphsCoords ∧
          u.glyphsTexCoords = scrollLeftArea.glyphsTexCoords) ∧
    (∀ font, scrollLeftArea.font = some font →
      (recalculate scrollLeftArea = some scrollLeftArea ↔
        adjustStartInternalPos font scrollLeftArea
          (font.calculateGlyphsPositions scrollLeftArea.text scrollLeftArea.align).1
          = some scrollLeftArea.startInternalPos)) :=
  ⟨by decide, by decide,
    recalculate_idempotent scrollLeftArea scrollLeftArea (by decide) rfl⟩

/-- C1 fails as stated: for the text "AWA" with a glyph "W" wider than the 20x10
viewport, scrolled to the last glyph, with the cursor moved back to 1, the first
`recalculate` scrolls left to the cursor and lays out only glyph 1, clipped to
(0,0)-(19,9); no glyph is complete, `startRenderPos` becomes -1, and the second
`recalculate` scrolls right to glyph 0 and lays out glyphs 0 and 1. The same
shows on the public interface: after the constructor, `enableCursor(true)`,
three `moveCursor(true)` and two `moveCursor(false)`, a call of
`setAlign(ALIGN_TOP_LEFT)`, which changes no input, changes the layout. -/
theorem recalculate_not_idempotent_counterexample :
    wideGlyphArea.screenCoords.isValid ∧
    (recalculate wideGlyphArea).map (fun t => (t.glyphsCoords, t.glyphsTexCoords))
      = some ([Rect.default, ⟨0, 0, 19, 9⟩, Rect.default],
              [Rect.default, ⟨1392, 0, 1411, 9⟩, Rect.default]) ∧
    ((recalculate wideGlyphArea).bind recalculate).map
        (fun t => (t.glyphsCoords, t.glyphsTexCoords))
      = some ([⟨0, 0, 9, 9⟩, ⟨10, 0, 19, 9⟩, Rect.default],
              [⟨1040, 0, 1049, 9⟩, ⟨1392, 0, 1401, 9⟩, Rect.default]) ∧
    ((mkWith (some wideFont) [65, 87, 65] (Rect.ofXYWH 0 0 20 10) ALIGN_TOP_LEFT Color.white 0).bind
        (runMutators [.enableCursor true 0, .moveCursor true 0, .moveCursor true 0,
          .moveCursor true 0, .moveCursor false 0, .moveCursor false 0])).map
        (fun t => t.glyphsCoords) = some [Rect.default, ⟨0, 0, 19, 9⟩, Rect.default] ∧
    ((mkWith (some wideFont) [65, 87, 65] (Rect.ofXYWH 0 0 20 10) ALIGN_TOP_LEFT Color.white 0).bind
        (runMutators [.enableCursor true 0, .moveCursor true 0, .moveCursor true 0,
          .moveCursor true 0, .moveCursor false 0, .moveCursor false 0,
          .setAlign ALIGN_TOP_LEFT])).map
        (fun t => t.glyphsCoords) = some [⟨0, 0, 9, 9⟩, ⟨10, 0, 19, 9⟩, Rect.default] := by
  decide

/-! ## The first complete glyph -/

theorem glyphsLoop_startRenderPos_kept (font : Font) (glyphsPositions : List Point)
    (textBoxSize : Size) (rest : List Nat) : ∀ (i : Nat) (s t : TextArea),
    glyphsLoop font glyphsPositions textBoxSize rest i s = some t →
    s.startRenderPos ≠ -1 → t.startRenderPos = s.startRenderPos := by
  induction rest with
  | nil =>
    intro i s t h _
    simp only [glyphsLoop, Option.some.injEq] at h
    subst h; rfl
  | cons g rest ih =>
    intro i s t h hs
    simp only [glyphsLoop] at h
    split at h
    · have e := ih _ _ _ h
      exact e hs
    · split at h
      · exact absurd h (by simp)
      · split at h
        · have e := ih _ _ _ h
          exact e hs
        · have e := ih _ _ _ h
          simp only [hs, false_and, if_false] at e
          exact e hs

theorem glyphsLoop_startRenderPos_le (font : Font) (glyphsPositions : List Point)
    (textBoxSize : Size) (rest : List Nat) : ∀ (i : Nat) (s t : TextArea),
    glyphsLoop font glyphsPositions textBoxSize rest i s = some t →
    s.startRenderPos = -1 →
    ∀ (k glyph : Nat) (pos : Point) (gt : Rect × Rect), rest[k]? = some glyph → 32 ≤ glyph →
      glyphsPositions[i + k]? = some pos →
      layoutGlyph font s.screenCoords s.align textBoxSize s.startInternalPos pos glyph = some gt →
      gt.1.size = font.glyphsSize glyph →
      (i : Int) ≤ t.startRenderPos ∧ t.startRenderPos ≤ ((i + k : Nat) : Int) := by
  induction rest with
  | nil => intro i s t _ _ k glyph pos gt hk; simp at hk
  | cons g rest ih =>
    intro i s t h hs k glyph pos gt hk h32 hp hl hsz
    simp only [glyphsLoop] at h
    cases k with
    | zero =>
      simp only [List.getElem?_cons_zero, Option.some.injEq] at hk
      subst hk
      simp only [Nat.add_zero] at hp ⊢
      have hn : ¬ g < 32 := by omega
      simp only [hn, if_false, hp, hl, hs, hsz, and_self, if_true] at h
      have e := glyphsLoop_startRenderPos_kept _ _ _ _ _ _ _ h (by simp only; omega)
      simp only at e
      omega
    | succ k =>
      simp only [List.getElem?_cons_succ] at hk
      have e : i + (k + 1) = (i + 1) + k := by omega
      rw [e] at hp ⊢
      split at h
      · have ih1 := ih _ _ _ h
        have := ih1 hs k glyph pos gt hk h32 hp hl hsz
        omega
      · split at h
        · exact absurd h (by simp)
        · split at h
          · have ih1 := ih _ _ _ h
            have := ih1 hs k glyph pos gt hk h32 hp hl hsz
            omega
          · rename_i gt0 _
            by_cases hc : gt0.1.size = font.glyphsSize g
            · have e1 := glyphsLoop_startRenderPos_kept _ _ _ _ _ _ _ h
                (by simp only [hs, hc, and_self, if_true]; omega)
              simp only [hs, hc, and_self, if_true] at e1
              omega
            · have ih1 := ih _ _ _ h
              have := ih1 (by simp only [hs, hc, and_false, if_false])
                k glyph pos gt hk h32 hp hl hsz
              omega

theorem recalculate_startRenderPos_le (s t : TextArea) (font : Font)
    (hv : s.screenCoords.isValid) (hf : s.font = some font) (h : recalculate s = some t)
    (j glyph : Nat) (pos : Point) (gt : Rect × Rect)
    (hj : s.text[j]? = some glyph) (h32 : 32 ≤ glyph)
    (hp : (font.calculateGlyphsPositions s.text s.align).1[j]? = some pos)
    (hl : layoutGlyph font s.screenCoords s.align (font.calculateGlyphsPositions s.text s.align).2
      t.startInternalPos pos glyph = some gt)
    (hsz : gt.1.size = font.glyphsSize glyph) :
    0 ≤ t.startRenderPos ∧ t.startRenderPos ≤ j := by
  obtain ⟨_, hloop⟩ := recalculate_loop s t font hv hf h
  have := glyphsLoop_startRenderPos_le _ _ _ _ _ _ _ hloop rfl j glyph pos gt hj h32
    (by simpa using hp) hl hsz
  simpa using this

/-! ## The scroll-to-cursor example -/

/-- A glyph whose aligned rectangle lies inside the scrolled viewport is stored
unclipped. -/
theorem layoutGlyph_unclipped (font : Font) (screenCoords : Rect) (align : Nat)
    (textBoxSize : Size) (pos : Point) (glyph : Nat) (sx sy : Int) (a : Rect)
    (ha : a = alignGlyph screenCoords align textBoxSize
      (Rect.ofPointSize pos (font.glyphsSize glyph)))
    (hvalid : a.isValid) (hx1 : sx ≤ a.x1) (hy1 : sy ≤ a.y1)
    (hx2 : a.x2 - sx ≤ screenCoords.width - 1) (hy2 : a.y2 - sy ≤ screenCoords.height - 1) :
    layoutGlyph font screenCoords align textBoxSize ⟨sx, sy⟩ pos glyph
      = some (⟨a.x1 + -sx + screenCoords.x1, a.y1 + -sy + screenCoords.y1,
               a.x2 + -sx + screenCoords.x1, a.y2 + -sy + screenCoords.y1⟩,
              font.glyphsTextureCoords glyph) := by
  unfold layoutGlyph
  simp only [← ha]
  obtain ⟨a1, b1, a2, b2⟩ := a
  obtain ⟨c1, d1, c2, d2⟩ := screenCoords
  simp only [Rect.isValid, Rect.width, Rect.height] at hvalid hx1 hy1 hx2 hy2
  have h1 : ¬ (b2 < sy ∨ a2 < sx) := by omega
  simp only [Rect.bottom, Rect.right, h1, if_false, clipTopLeft, Rect.top, Rect.left,
    Int.not_lt.mpr hy1, Int.not_lt.mpr hx1, Rect.translate, Rect.topLeft]
  have h2 : Rect.intersects ⟨c1, d1, c2, d2⟩
      ⟨a1 + -sx + c1, b1 + -sy + d1, a2 + -sx + c1, b2 + -sy + d1⟩ := by
    simp only [Rect.intersects, Rect.isNull]
    split_ifs <;> omega
  have h3 : ¬ (b2 + -sy + d1 > d2) := by omega
  have h4 : ¬ (a2 + -sx + c1 > c2) := by omega
  simp only [h2, not_true_eq_false, if_false, clipBottomRight, Rect.bottom, Rect.right, h3, h4]

theorem length_linePositions (glyphWidth : Nat → Int) (y : Int) (text : List Nat) :
    ∀ x : Int, (linePositions glyphWidth y text x).length = text.length := by
  induction text with
  | nil => intro x; rfl
  | cons c cs ih => intro x; simp only [linePositions, List.length_cons, ih]

theorem linePositions_getElem? (w y : Int) (text : List Nat) : ∀ (x : Int) (i : Nat),
    i < text.length → (linePositions (fun _ => w) y text x)[i]? = some ⟨x + w * i, y⟩ := by
  induction text with
  | nil => intro x i h; simp at h
  | cons c cs ih =>
    intro x i h
    cases i with
    | zero => simp [linePositions]
    | succ i =>
      simp only [linePositions, List.getElem?_cons_succ]
      rw [ih (x + w) i (by simpa using h)]
      simp only [Option.some.injEq, Point.mk.injEq, and_true]
      push_cast
      ring

/-- One relayout of the 100-glyph example with the cursor just moved behind
glyph `k`. -/
theorem hundredGlyphs_recalculate (k : Nat) (hk : k < 100) (s : TextArea)
    (hf : s.font = some (lineFont (fun _ => 10) 10 0)) (ht : s.text = List.replicate 100 65)
    (hsc : s.screenCoords = Rect.ofXYWH 0 0 50 10) (hal : s.align = ALIGN_TOP_LEFT)
    (hcp : s.cursorPos = (k : Int) + 1)
    (hsip : s.startInternalPos = ⟨max (10 * (k : Int) - 50) 0, 0⟩)
    (hsrp : s.startRenderPos ≤ k) :
    ∃ t, recalculate s = some t ∧ HundredGlyphs (k + 1) t ∧
      t.glyphsCoords[k]? = some (hundredGlyphRect k) := by
  have hv : s.screenCoords.isValid := by rw [hsc]; decide
  have hpos : ((lineFont (fun _ => 10) 10 0).calculateGlyphsPositions s.text s.align).1
      = linePositions (fun _ => 10) 0 (List.replicate 100 65) 0 := by
    rw [ht]; rfl
  have hlen : s.text.length
      ≤ ((lineFont (fun _ => 10) 10 0).calculateGlyphsPositions s.text s.align).1.length := by
    rw [hpos, length_linePositions, ht]
  have hidx : (s.cursorPos - 1).toNat = k := by rw [hcp]; omega
  have hg : s.text[k]? = some 65 := by
    rw [ht, List.getElem?_replicate, if_pos hk]
  have hp : ((lineFont (fun _ => 10) 10 0).calculateGlyphsPositions s.text s.align).1[k]?
      = some ⟨10 * (k : Int), 0⟩ := by
    rw [hpos, linePositions_getElem? 10 0 _ 0 k (by simpa using hk)]
    simp
  obtain ⟨t, hrec⟩ := recalculate_returns s _ hv hf hlen
    (Or.inr (Or.inr (Or.inr (Or.inr ⟨by omega, by omega, by rw [ht]; simp; omega⟩))))
  have hfr := recalculate_frame s t hrec
  obtain ⟨hadj, _⟩ := recalculate_loop s t _ hv hf hrec
  rw [adjustStartInternalPos_right _ s _ 65 ⟨10 * (k : Int), 0⟩ (by omega) (by omega)
    (by rw [hidx]; exact hg) (by rw [hidx]; exact hp)] at hadj
  have hsip1 : t.startInternalPos = ⟨max (10 * ((k : Int) + 1) - 50) 0, 0⟩ := by
    simp only [Option.some.injEq] at hadj
    rw [← hadj]
    simp only [virtualViewport, naturalRect, hsip, hsc, Rect.ofPointSize, Rect.ofXYWH, Rect.size,
      Rect.width, Rect.height, Rect.contains, Rect.topLeft, Rect.bottomRight, Rect.right,
      Rect.bottom, lineFont]
    split_ifs <;> simp only [Point.mk.injEq] <;> constructor <;> first | trivial | omega
  obtain ⟨pos1, hp1, _, hsome⟩ := (recalculate_entry s t _ hv hf hrec k 65 hg).2 (by omega)
  rw [hp] at hp1
  simp only [Option.some.injEq] at hp1
  subst hp1
  have hlay := layoutGlyph_unclipped (lineFont (fun _ => 10) 10 0) s.screenCoords s.align
    ((lineFont (fun _ => 10) 10 0).calculateGlyphsPositions s.text s.align).2
    ⟨10 * (k : Int), 0⟩ 65 (max (10 * ((k : Int) + 1) - 50) 0) 0
    ⟨10 * (k : Int), 0, 10 * (k : Int) + 10 - 1, 0 + 10 - 1⟩
    (by rw [hal, alignGlyph_topLeft]; rfl)
    (by simp only [Rect.isValid]; omega) (by simp only; omega) (by simp only; omega)
    (by rw [hsc]; simp only [Rect.ofXYWH, Rect.width]; omega)
    (by rw [hsc]; simp only [Rect.ofXYWH, Rect.height]; omega)
  rw [← hsip1] at hlay
  have hres := hsome _ hlay
  have hsrp1 := recalculate_startRenderPos_le s t _ hv hf hrec k 65 _ _ hg (by omega) hp hlay
    (by simp only [Rect.size, Rect.width, Rect.height, lineFont, Size.mk.injEq]; omega)
  refine ⟨t, hrec, ⟨?_, ?_, ?_, ?_, ?_, ?_, ?_⟩, ?_⟩
  · rw [hfr.font, hf]
  · rw [hfr.text, ht]
  · rw [hfr.screenCoords, hsc]
  · rw [hfr.align, hal]
  · rw [hfr.cursorPos, hcp]; push_cast; rfl
  · rw [hsip1]; push_cast; rfl
  · push_cast; omega
  · rw [hres.1, hsc]
    simp only [hundredGlyphRect, Rect.ofXYWH, Option.some.injEq, Rect.mk.injEq]
    decide

theorem runMutators_cons (m : Mutator) (ms : List Mutator) (s : TextArea) :
    runMutators (m :: ms) s = (m.apply s).bind (runMutators ms) := by
  simp only [runMutators]
  cases m.apply s <;> rfl

theorem adjustStartInternalPos_same (font : Font) (s : TextArea) (glyphsPositions : List Point)
    (h : s.cursorPos = s.startRenderPos) (hsip : s.startInternalPos = ⟨0, 0⟩) :
    adjustStartInternalPos font s glyphsPositions = some ⟨0, 0⟩ := by
  unfold adjustStartInternalPos
  have h1 : ¬ s.startRenderPos > s.cursorPos := by omega
  have h2 : ¬ s.cursorPos > s.startRenderPos := by omega
  simp only [h1, h2, if_false, hsip]
  split <;> rfl

/-- A relayout of the 100-glyph example at scroll offset (0,0) that does not
scroll: glyph 0 is the first complete glyph. -/
theorem hundredGlyphs_recalculate_start (s : TextArea)
    (hf : s.font = some (lineFont (fun _ => 10) 10 0)) (ht : s.text = List.replicate 100 65)
    (hsc : s.screenCoords = Rect.ofXYWH 0 0 50 10) (hal : s.align = ALIGN_TOP_LEFT)
    (hsip : s.startInternalPos = ⟨0, 0⟩)
    (hcase : s.cursorPos < 0 ∨ s.cursorPos = s.startRenderPos) :
    ∃ t, recalculate s = some t ∧ SameSettings s t ∧ t.startInternalPos = ⟨0, 0⟩ ∧
      t.startRenderPos = 0 := by
  have hv : s.screenCoords.isValid := by rw [hsc]; decide
  have hpos : ((lineFont (fun _ => 10) 10 0).calculateGlyphsPositions s.text s.align).1
      = linePositions (fun _ => 10) 0 (List.replicate 100 65) 0 := by
    rw [ht]; rfl
  have hlen : s.text.length
      ≤ ((lineFont (fun _ => 10) 10 0).calculateGlyphsPositions s.text s.align).1.length := by
    rw [hpos, length_linePositions, ht]
  have hg : s.text[0]? = some 65 := by rw [ht]; rfl
  have hp : ((lineFont (fun _ => 10) 10 0).calculateGlyphsPositions s.text s.align).1[0]?
      = some ⟨0, 0⟩ := by
    rw [hpos]; rfl
  obtain ⟨t, hrec⟩ := recalculate_returns s _ hv hf hlen
    (by rcases hcase with h | h
        · exact Or.inl h
        · exact Or.inr (Or.inr (Or.inl h)))
  obtain ⟨hadj, _⟩ := recalculate_loop s t _ hv hf hrec
  have hsip1 : t.startInternalPos = ⟨0, 0⟩ := by
    rcases hcase with h | h
    · rw [adjustStartInternalPos_disabled _ s _ (Or.inl h)] at hadj
      simp only [Option.some.injEq] at hadj
      exact hadj.symm
    · rw [adjustStartInternalPos_same _ s _ h hsip] at hadj
      simp only [Option.some.injEq] at hadj
      exact hadj.symm
  have hlay := layoutGlyph_unclipped (lineFont (fun _ => 10) 10 0) s.screenCoords s.align
    ((lineFont (fun _ => 10) 10 0).calculateGlyphsPositions s.text s.align).2
    ⟨0, 0⟩ 65 0 0 ⟨0, 0, 0 + 10 - 1, 0 + 10 - 1⟩
    (by rw [hal, alignGlyph_topLeft]; rfl)
    (by decide) (by decide) (by decide)
    (by rw [hsc]; decide) (by rw [hsc]; decide)
  nth_rewrite 1 [← hsip1] at hlay
  have hsrp1 := recalculate_startRenderPos_le s t _ hv hf hrec 0 65 _ _ hg (by omega) hp hlay
    (by simp only [Rect.size, Rect.width, Rect.height, lineFont, Size.mk.injEq]; omega)
  exact ⟨t, hrec, recalculate_frame s t hrec, hsip1, by omega⟩

theorem hundredGlyphs_enableCursor :
    ∃ t, (mkWith (some (lineFont (fun _ => 10) 10 0)) (List.replicate 100 65)
        (Rect.ofXYWH 0 0 50 10) ALIGN_TOP_LEFT Color.white 0).bind (enableCursor true 0) = some t ∧
      HundredGlyphs 0 t := by
  obtain ⟨t0, h0, hs0, hsip0, hsrp0⟩ := hundredGlyphs_recalculate_start
    { font := some (lineFont (fun _ => 10) 10 0), text := List.replicate 100 65,
      screenCoords := Rect.ofXYWH 0 0 50 10, drawArea := Rect.default, align := ALIGN_TOP_LEFT,
      color := Color.white, startInternalPos := ⟨0, 0⟩, cursorPos := -1, startRenderPos := 0,
      cursorTicks := 0, cursorVisible := false, glyphsTexCoords := [], glyphsCoords := [] }
    rfl rfl rfl rfl rfl (Or.inl (by decide))
  obtain ⟨t, h1, hs1, hsip1, hsrp1⟩ := hundredGlyphs_recalculate_start
    { t0 with cursorPos := 0, cursorTicks := 0 }
    hs0.font hs0.text hs0.screenCoords hs0.align hsip0 (Or.inr hsrp0.symm)
  refine ⟨t, ?_, ?_⟩
  · have e : mkWith (some (lineFont (fun _ => 10) 10 0)) (List.replicate 100 65)
        (Rect.ofXYWH 0 0 50 10) ALIGN_TOP_LEFT Color.white 0 = some t0 := h0
    rw [e]
    exact h1
  · exact ⟨hs1.font.trans hs0.font, hs1.text.trans hs0.text,
      hs1.screenCoords.trans hs0.screenCoords, hs1.align.trans hs0.align, hs1.cursorPos,
      hsip1, by rw [hsrp1]; decide⟩

theorem hundredGlyphs_moveCursor (k : Nat) (hk : k < 100) (s : TextArea)
    (h : HundredGlyphs k s) :
    ∃ t, moveCursor true 0 s = some t ∧ HundredGlyphs (k + 1) t ∧
      t.glyphsCoords[k]? = some (hundredGlyphRect k) := by
  obtain ⟨hf, ht, hsc, hal, hcp, hsip, hsrp⟩ := h
  have hu : toUInt s.cursorPos = k := by
    rw [hcp, toUInt_of_nonneg _ (by omega) (by omega)]
    omega
  have hm : (k + 1) % 2 ^ 32 = k + 1 := Nat.mod_eq_of_lt (by omega)
  have hc : (toUInt s.cursorPos + 1) % 2 ^ 32 ≤ s.text.length := by
    rw [hu, hm, ht]
    simp only [List.length_replicate]
    omega
  unfold moveCursor
  simp only [if_true, hc]
  exact hundredGlyphs_recalculate k hk _ hf ht hsc hal (by simp only [hcp]) hsip hsrp

theorem hundredGlyphs_run (n : Nat) : ∀ (j : Nat) (s : TextArea), j + n ≤ 100 →
    HundredGlyphs j s →
    ∃ t, runMutators (List.replicate n (Mutator.moveCursor true 0)) s = some t ∧
      HundredGlyphs (j + n) t ∧
      (0 < n → t.glyphsCoords[j + n - 1]? = some (hundredGlyphRect (j + n - 1))) := by
  induction n with
  | zero => intro j s _ h; exact ⟨s, rfl, h, fun hn => absurd hn (by omega)⟩
  | succ n ih =>
    intro j s hj h
    obtain ⟨t1, h1, hinv1, hg1⟩ := hundredGlyphs_moveCursor j (by omega) s h
    obtain ⟨t, h2, hinv2, hg2⟩ := ih (j + 1) t1 (by omega) hinv1
    have e1 : j + (n + 1) = j + 1 + n := by omega
    refine ⟨t, ?_, by rw [e1]; exact hinv2, fun _ => ?_⟩
    · rw [List.replicate_succ, runMutators_cons]
      simp only [Mutator.apply, h1, Option.bind_some]
      exact h2
    · cases n with
      | zero =>
        simp only [List.replicate_zero, runMutators, Option.some.injEq] at h2
        subst h2
        simpa using hg1
      | succ n =>
        have e2 : j + (n + 1 + 1) - 1 = j + 1 + (n + 1) - 1 := by omega
        rw [e2]
        exact hg2 (by omega)



/-- The example of C6: 100 glyphs "A" of width 10 in a viewport of width 50;
after `enableCursor(true)` and 20 calls of `moveCursor(true)` the cursor is at
20, the scroll offset is 150 and glyph 19 occupies (40,0)-(49,9), its right
edge on `screenCoords.right() == 49`. -/
theorem scroll_to_cursor_hundred_glyphs :
    ∃ t, (mkWith (some (lineFont (fun _ => 10) 10 0)) (List.replicate 100 65)
        (Rect.ofXYWH 0 0 50 10) ALIGN_TOP_LEFT Color.white 0).bind
          (runMutators (moveRightCalls 20)) = some t ∧
      t.cursorPos = 20 ∧ t.startInternalPos = ⟨150, 0⟩ ∧
      t.glyphsCoords[19]? = some ⟨40, 0, 49, 9⟩ ∧
      (t.glyphsCoords[19]?).map Rect.right = some t.screenCoords.right := by
  obtain ⟨t0, h0, hinv0⟩ := hundredGlyphs_enableCursor
  obtain ⟨t, h1, hinv, hg⟩ := hundredGlyphs_run 20 0 t0 (by omega) hinv0
  have hg19 : t.glyphsCoords[19]? = some ⟨40, 0, 49, 9⟩ := by
    rw [hg (by omega)]
    decide
  obtain ⟨_, _, hsc, _, hcp, hsip, _⟩ := hinv
  refine ⟨t, ?_, by rw [hcp]; rfl, by rw [hsip]; decide, hg19, by rw [hg19, hsc]; rfl⟩
  cases hm : mkWith (some (lineFont (fun _ => 10) 10 0)) (List.replicate 100 65)
      (Rect.ofXYWH 0 0 50 10) ALIGN_TOP_LEFT Color.white 0 with
  | none => rw [hm] at h0; simp at h0
  | some a =>
    rw [hm] at h0
    have h0a : enableCursor true 0 a = some t0 := h0
    show runMutators (moveRightCalls 20) a = some t
    rw [moveRightCalls, runMutators_cons]
    show (enableCursor true 0 a).bind _ = some t
    rw [h0a]
    exact h1

/-! ## getTextPos -/

theorem default_not_contains (pos : Point) : ¬ Rect.default.contains pos := by
  simp only [Rect.contains, Rect.default]
  intro h
  simp only [show ¬ ((-1 : Int) < 0 - 1) by decide, if_false] at h
  omega

theorem getTextPosLoop_returns (s : TextArea) (pos : Point) (hf : s.font ≠ none) (n : Nat) :
    ∀ i : Nat, i + n ≤ s.glyphsCoords.length → ∃ r, getTextPosLoop s pos i n = some r := by
  induction n with
  | zero => intro i _; exact ⟨-1, rfl⟩
  | succ n ih =>
    intro i h
    have hi : i < s.glyphsCoords.length := by omega
    cases hfont : s.font with
    | none => exact absurd hfont hf
    | some font =>
      simp only [getTextPosLoop, List.getElem?_eq_getElem hi, hfont]
      split
      · exact ⟨_, rfl⟩
      · exact ih (i + 1) (by omega)

theorem getTextPosLoop_spec (s : TextArea) (pos : Point) (n : Nat) :
    ∀ (i : Nat) (r : Int), getTextPosLoop s pos i n = some r →
      (r = -1 ∧ ∀ (j : Nat) (g : Rect), i ≤ j → j < i + n → s.glyphsCoords[j]? = some g →
        ¬ g.contains pos) ∨
      (∃ (k : Nat) (g : Rect), r = (k : Int) ∧ i ≤ k ∧ k < i + n ∧ s.glyphsCoords[k]? = some g ∧ g.contains pos ∧
        ∀ (j : Nat) (g1 : Rect), i ≤ j → j < k → s.glyphsCoords[j]? = some g1 →
          ¬ g1.contains pos) := by
  induction n with
  | zero =>
    intro i r h
    simp only [getTextPosLoop, Option.some.injEq] at h
    exact Or.inl ⟨h.symm, fun j g h1 h2 => absurd h2 (by omega)⟩
  | succ n ih =>
    intro i r h
    cases hg : s.glyphsCoords[i]? with
    | none => simp [getTextPosLoop, hg] at h
    | some g =>
      cases hfont : s.font with
      | none => simp [getTextPosLoop, hg, hfont] at h
      | some font =>
        simp only [getTextPosLoop, hg, hfont] at h
        by_cases hc : g.contains pos
        · simp only [hc, if_true, Option.some.injEq] at h
          exact Or.inr ⟨i, g, h.symm, le_refl _, by omega, hg, hc,
            fun j g1 h1 h2 => absurd h2 (by omega)⟩
        · simp only [hc, if_false] at h
          have hstep : ∀ (j : Nat) (g1 : Rect), i ≤ j → j < i + 1 →
              s.glyphsCoords[j]? = some g1 → ¬ g1.contains pos := by
            intro j g1 h1 h2 hj
            have e : j = i := by omega
            rw [e, hg] at hj
            simp only [Option.some.injEq] at hj
            rw [← hj]; exact hc
          rcases ih (i + 1) r h with ⟨hr, hall⟩ | ⟨k, gk, hr, hk1, hk2, hgk, hck, hall⟩
          · refine Or.inl ⟨hr, fun j g1 h1 h2 hj => ?_⟩
            by_cases hji : j < i + 1
            · exact hstep j g1 h1 hji hj
            · exact hall j g1 (by omega) (by omega) hj
          · refine Or.inr ⟨k, gk, hr, by omega, by omega, hgk, hck, fun j g1 h1 h2 hj => ?_⟩
            by_cases hji : j < i + 1
            · exact hstep j g1 h1 hji hj
            · exact hall j g1 (by omega) h2 hj

/-- C11. Hit test. In a state whose glyphsCoords has the length of the text, getTextPos
returns (whenever a font is set), and its result is -1 exactly when no stored rect contains
the point; otherwise it is the smallest index whose stored rect contains the point. An entry
holding the default rect is never returned, and when no two stored rects share a point, a
point inside rect i yields i. -/
theorem getTextPos_first_containing (s : TextArea) (pos : Point)
    (hlen : s.glyphsCoords.length = s.text.length) :
    (s.font ≠ none → ∃ r, getTextPos pos s = some r) ∧
    ∀ r, getTextPos pos s = some r →
      (r = -1 ↔ ∀ (j : Nat) (g : Rect), s.glyphsCoords[j]? = some g → ¬ g.contains pos) ∧
      (r ≠ -1 → ∃ (k : Nat) (g : Rect), r = (k : Int) ∧ s.glyphsCoords[k]? = some g ∧ g.contains pos ∧
        ∀ (j : Nat) (g1 : Rect), j < k → s.glyphsCoords[j]? = some g1 → ¬ g1.contains pos) ∧
      (∀ k : Nat, s.glyphsCoords[k]? = some Rect.default → r ≠ (k : Int)) ∧
      ((∀ (i j : Nat) (gi gj : Rect) (q : Point), i ≠ j → s.glyphsCoords[i]? = some gi → s.glyphsCoords[j]? = some gj →
          ¬ (gi.contains q ∧ gj.contains q)) →
        ∀ (i : Nat) (g : Rect), s.glyphsCoords[i]? = some g → g.contains pos → r = (i : Int)) := by
  refine ⟨fun hf => getTextPosLoop_returns s pos hf _ 0 (by omega), fun r hr => ?_⟩
  have hin : ∀ (j : Nat) (g : Rect), s.glyphsCoords[j]? = some g → j < 0 + s.text.length := by
    intro j g hj
    by_contra hn
    rw [List.getElem?_eq_none (by omega)] at hj
    exact absurd hj (by simp)
  have hspec := getTextPosLoop_spec s pos _ 0 r hr
  have hfirst : r ≠ -1 → ∃ (k : Nat) (g : Rect), r = (k : Int) ∧ s.glyphsCoords[k]? = some g ∧ g.contains pos ∧
      ∀ (j : Nat) (g1 : Rect), j < k → s.glyphsCoords[j]? = some g1 → ¬ g1.contains pos := by
    intro hne
    rcases hspec with ⟨h1, _⟩ | ⟨k, g, h1, _, _, h4, h5, h6⟩
    · exact absurd h1 hne
    · exact ⟨k, g, h1, h4, h5, fun j g1 hj hg1 => h6 j g1 (Nat.zero_le _) hj hg1⟩
  refine ⟨⟨fun h1 j g hj => ?_, fun hall => ?_⟩, hfirst, fun k hk hrk => ?_, fun hno i g hi hc => ?_⟩
  · rcases hspec with ⟨_, h2⟩ | ⟨k, g1, h2, _⟩
    · exact h2 j g (Nat.zero_le _) (hin j g hj) hj
    · omega
  · by_contra hne
    obtain ⟨k, g, _, h2, h3, _⟩ := hfirst hne
    exact hall k g h2 h3
  · obtain ⟨k1, g, h1, h2, h3, _⟩ := hfirst (by omega)
    have e : k1 = k := by omega
    rw [e, hk] at h2
    simp only [Option.some.injEq] at h2
    rw [← h2] at h3
    exact default_not_contains pos h3
  · by_contra hne
    have hr1 : r ≠ -1 := by
      intro h1
      rcases hspec with ⟨_, h2⟩ | ⟨k, g1, h2, _⟩
      · exact h2 i g (Nat.zero_le _) (hin i g hi) hi hc
      · omega
    obtain ⟨k, gk, h1, h2, h3, _⟩ := hfirst hr1
    have hki : k ≠ i := by
      intro e; rw [e] at h1; exact hne h1
    exact hno k i gk g pos hki h2 hi ⟨h3, hc⟩

/-- The hit test of C11 on the two laid-out glyphs "AB", at a point of the second glyph. -/
theorem getTextPos_first_containing_witness :
    (laidOutArea.font ≠ none → ∃ r, getTextPos ⟨12, 3⟩ laidOutArea = some r) ∧
    ∀ r, getTextPos ⟨12, 3⟩ laidOutArea = some r →
      (r = -1 ↔ ∀ (j : Nat) (g : Rect), laidOutArea.glyphsCoords[j]? = some g → ¬ g.contains ⟨12, 3⟩) ∧
      (r ≠ -1 → ∃ (k : Nat) (g : Rect), r = (k : Int) ∧ laidOutArea.glyphsCoords[k]? = some g ∧
        g.contains ⟨12, 3⟩ ∧
        ∀ (j : Nat) (g1 : Rect), j < k → laidOutArea.glyphsCoords[j]? = some g1 → ¬ g1.contains ⟨12, 3⟩) ∧
      (∀ k : Nat, laidOutArea.glyphsCoords[k]? = some Rect.default → r ≠ (k : Int)) ∧
      ((∀ (i j : Nat) (gi gj : Rect) (q : Point), i ≠ j → laidOutArea.glyphsCoords[i]? = some gi →
          laidOutArea.glyphsCoords[j]? = some gj → ¬ (gi.contains q ∧ gj.contains q)) →
        ∀ (i : Nat) (g : Rect), laidOutArea.glyphsCoords[i]? = some g → g.contains ⟨12, 3⟩ → r = (i : Int)) :=
  getTextPos_first_containing laidOutArea ⟨12, 3⟩ (by decide)

/-! ## Editing -/

/-- The unsigned cast of a non-negative int never exceeds it. -/
theorem toUInt_le (c : Int) (h0 : 0 ≤ c) : (toUInt c : Int) ≤ c := by
  unfold toUInt
  have e : (2 : Int) ^ 32 = 4294967296 := by norm_num
  rw [e]
  omega

/-- Erasing the index at which a character was inserted gives the original string. -/
theorem eraseIdx_insert (text : List Nat) (c : Nat) : ∀ n : Nat, n ≤ text.length →
    (text.take n ++ c :: text.drop n).eraseIdx n = text := by
  induction text with
  | nil => intro n h; simp at h; subst h; rfl
  | cons a as ih =>
    intro n h
    cases n with
    | zero => rfl
    | succ n =>
      simp only [List.take_succ_cons, List.drop_succ_cons, List.cons_append, List.eraseIdx_cons_succ]
      rw [ih n (by simpa using h)]

/-- The character inserted at index n is read back at index n. -/
theorem getElem_insert (text : List Nat) (c : Nat) : ∀ n : Nat, n ≤ text.length →
    (text.take n ++ c :: text.drop n)[n]? = some c := by
  induction text with
  | nil => intro n h; simp at h; subst h; rfl
  | cons a as ih =>
    intro n h
    cases n with
    | zero => rfl
    | succ n =>
      simp only [List.take_succ_cons, List.drop_succ_cons, List.cons_append,
        List.getElem?_cons_succ]
      exact ih n (by simpa using h)

/-- Backspace with the cursor behind a character: the character before the
cursor is erased, the cursor moves one step back, and the text is laid out
again. -/
theorem removeCharacter_false_pos (s : TextArea) (ticks : Int) (h0 : 0 < s.cursorPos)
    (h1 : s.cursorPos ≤ s.text.length) :
    removeCharacter false ticks s = recalculate { s with
      cursorPos := s.cursorPos - 1, text := s.text.eraseIdx (s.cursorPos - 1).toNat,
      cursorTicks := ticks } := by
  have hu := toUInt_le s.cursorPos (by omega)
  have hc : toUInt s.cursorPos ≤ s.text.length := by omega
  have h2 : 0 ≤ s.cursorPos := by omega
  simp [removeCharacter, h0, hc, h2]

/-- Backspace with the cursor at 0: the text is only laid out again. -/
theorem removeCharacter_false_zero (s : TextArea) (ticks : Int) (h0 : s.cursorPos = 0) :
    removeCharacter false ticks s = recalculate s := by
  simp [removeCharacter, h0]

/-- With a font that gives every character a position, `recalculate` returns when
the reads of its scroll adjustment are in bounds, and every state it returns has
the text and the cursor of the state it was called on. -/
theorem relayout_result (s : TextArea) (font : Font) (hf : s.font = some font)
    (hlen : s.text.length ≤ (font.calculateGlyphsPositions s.text s.align).1.length) :
    (scrollReadsInBounds s →
      ∃ t, recalculate s = some t ∧ t.text = s.text ∧ t.cursorPos = s.cursorPos) ∧
    ∀ t, recalculate s = some t → t.text = s.text ∧ t.cursorPos = s.cursorPos := by
  have hall : ∀ t, recalculate s = some t → t.text = s.text ∧ t.cursorPos = s.cursorPos :=
    fun t ht => ⟨(recalculate_frame s t ht).text, (recalculate_frame s t ht).cursorPos⟩
  refine ⟨fun hb => ?_, hall⟩
  by_cases hv : s.screenCoords.isValid
  · obtain ⟨t, ht⟩ := recalculate_returns s font hv hf hlen hb
    exact ⟨t, ht, hall t ht⟩
  · exact ⟨s, recalculate_of_invalid s hv, rfl, rfl⟩

/-- C12. Backspace. In a state with cursorPos <= text.length() whose font gives
every character a position: with 0 < cursorPos, removeCharacter(false) is
the relayout of the state whose text is the old text without the character at
index cursorPos - 1 (the characters before it followed by those from cursorPos
on) and whose cursorPos is one less; it returns when the scroll reads of that
relayout are in bounds, and every state it returns has that text and that
cursorPos. With cursorPos == 0 it is the relayout of the state itself, returns
under the same condition, and leaves text and cursorPos unchanged. -/
theorem removeCharacter_backspace (s : TextArea) (font : Font) (ticks : Int)
    (h1 : s.cursorPos ≤ s.text.length) (hf : s.font = some font)
    (hpos : ∀ text align, text.length ≤ (font.calculateGlyphsPositions text align).1.length) :
    (0 < s.cursorPos →
      removeCharacter false ticks s = recalculate { s with
        cursorPos := s.cursorPos - 1, text := s.text.eraseIdx (s.cursorPos - 1).toNat,
        cursorTicks := ticks } ∧
      s.text.eraseIdx (s.cursorPos - 1).toNat
        = s.text.take (s.cursorPos - 1).toNat ++ s.text.drop s.cursorPos.toNat ∧
      (scrollReadsInBounds { s with
          cursorPos := s.cursorPos - 1, text := s.text.eraseIdx (s.cursorPos - 1).toNat,
          cursorTicks := ticks } →
        ∃ t, removeCharacter false ticks s = some t ∧
          t.text = s.text.eraseIdx (s.cursorPos - 1).toNat ∧ t.cursorPos = s.cursorPos - 1) ∧
      ∀ t, removeCharacter false ticks s = some t →
        t.text = s.text.eraseIdx (s.cursorPos - 1).toNat ∧ t.cursorPos = s.cursorPos - 1) ∧
    (s.cursorPos = 0 →
      removeCharacter false ticks s = recalculate s ∧
      (scrollReadsInBounds s →
        ∃ t, removeCharacter false ticks s = some t ∧
          t.text = s.text ∧ t.cursorPos = s.cursorPos) ∧
      ∀ t, removeCharacter false ticks s = some t →
        t.text = s.text ∧ t.cursorPos = s.cursorPos) := by
  constructor
  · intro hp
    have he := removeCharacter_false_pos s ticks hp h1
    have hr := relayout_result { s with
      cursorPos := s.cursorPos - 1, text := s.text.eraseIdx (s.cursorPos - 1).toNat,
      cursorTicks := ticks } font hf (hpos _ _)
    refine ⟨he, ?_, ?_, ?_⟩
    · have e : s.cursorPos.toNat = (s.cursorPos - 1).toNat + 1 := by omega
      rw [e]
      exact List.eraseIdx_eq_take_drop_succ _ _
    · rw [he]; exact hr.1
    · rw [he]; exact hr.2
  · intro hz
    have he := removeCharacter_false_zero s ticks hz
    have hr := relayout_result s font hf (hpos _ _)
    rw [he]
    exact ⟨rfl, hr.1, hr.2⟩

/-- Backspace of C12 on the text "AB" with the cursor at its end: the call
returns a state with the text "A" and the cursor at 1. -/
theorem removeCharacter_backspace_witness :
    (0 : Int) ≤ cursorAtEndArea.cursorPos ∧
    cursorAtEndArea.cursorPos ≤ cursorAtEndArea.text.length ∧
    scrollReadsInBounds { cursorAtEndArea with
      cursorPos := cursorAtEndArea.cursorPos - 1,
      text := cursorAtEndArea.text.eraseIdx (cursorAtEndArea.cursorPos - 1).toNat,
      cursorTicks := 7 } ∧
    ∃ t, removeCharacter false 7 cursorAtEndArea = some t ∧
      t.text = cursorAtEndArea.text.eraseIdx (cursorAtEndArea.cursorPos - 1).toNat ∧
      t.cursorPos = cursorAtEndArea.cursorPos - 1 :=
  ⟨by decide, by decide, by decide,
    ((removeCharacter_backspace cursorAtEndArea (lineFont (fun _ => 10) 10 0) 7
      (by decide) rfl
      (fun text _ => le_of_eq (length_linePositions _ _ text 0).symm)).1 (by decide)).2.2.1
      (by decide)⟩

/-- C13. moveCursor clamps. In a state with 0 <= cursorPos <= text.length()
(cursorPos being a 32-bit int) whose font gives every character a position:
moveCursor(true) is the relayout of the state with cursorPos + 1 when
cursorPos < text.length() and of the state itself otherwise, moveCursor(false)
is the relayout of the state with cursorPos - 1 when 0 < cursorPos and of the
state itself otherwise. Each call returns when the scroll reads of that relayout
are in bounds, and every state it returns has the old text and the cursorPos
min(cursorPos + 1, text.length()), respectively max(cursorPos - 1, 0). -/
theorem moveCursor_clamps (s : TextArea) (font : Font) (ticks : Int) (h0 : 0 ≤ s.cursorPos)
    (h1 : s.cursorPos ≤ s.text.length) (hfit : s.cursorPos < 2 ^ 31)
    (hf : s.font = some font)
    (hpos : s.text.length ≤ (font.calculateGlyphsPositions s.text s.align).1.length) :
    (moveCursor true ticks s = recalculate
        (if s.cursorPos < s.text.length then
          { s with cursorPos := s.cursorPos + 1, cursorTicks := ticks } else s) ∧
      (scrollReadsInBounds
          (if s.cursorPos < s.text.length then
            { s with cursorPos := s.cursorPos + 1, cursorTicks := ticks } else s) →
        ∃ t, moveCursor true ticks s = some t ∧ t.text = s.text ∧
          t.cursorPos = min (s.cursorPos + 1) s.text.length) ∧
      ∀ t, moveCursor true ticks s = some t →
        t.text = s.text ∧ t.cursorPos = min (s.cursorPos + 1) s.text.length) ∧
    (moveCursor false ticks s = recalculate
        (if 0 < s.cursorPos then
          { s with cursorPos := s.cursorPos - 1, cursorTicks := ticks } else s) ∧
      (scrollReadsInBounds
          (if 0 < s.cursorPos then
            { s with cursorPos := s.cursorPos - 1, cursorTicks := ticks } else s) →
        ∃ t, moveCursor false ticks s = some t ∧ t.text = s.text ∧
          t.cursorPos = max (s.cursorPos - 1) 0) ∧
      ∀ t, moveCursor false ticks s = some t →
        t.text = s.text ∧ t.cursorPos = max (s.cursorPos - 1) 0) := by
  have hu : toUInt s.cursorPos = s.cursorPos.toNat := toUInt_of_nonneg _ h0 hfit
  have hm : (s.cursorPos.toNat + 1) % 2 ^ 32 = s.cursorPos.toNat + 1 :=
    Nat.mod_eq_of_lt (by omega)
  constructor
  · by_cases hlt : s.cursorPos < s.text.length
    · have hc : (toUInt s.cursorPos + 1) % 2 ^ 32 ≤ s.text.length := by
        rw [hu, hm]; omega
      have he : moveCursor true ticks s
          = recalculate { s with cursorPos := s.cursorPos + 1, cursorTicks := ticks } := by
        simp only [moveCursor, if_true, hc]
      have hr := relayout_result { s with cursorPos := s.cursorPos + 1, cursorTicks := ticks }
        font hf hpos
      have hmin : min (s.cursorPos + 1) (s.text.length : Int) = s.cursorPos + 1 := by omega
      simp only [hlt, if_true, hmin]
      rw [he]
      exact ⟨rfl, hr.1, hr.2⟩
    · have hc : ¬ (toUInt s.cursorPos + 1) % 2 ^ 32 ≤ s.text.length := by
        rw [hu, hm]; omega
      have he : moveCursor true ticks s = recalculate s := by
        simp only [moveCursor, if_true, hc, if_false]
      have hr := relayout_result s font hf hpos
      have hmin : min (s.cursorPos + 1) (s.text.length : Int) = s.cursorPos := by omega
      simp only [hlt, if_false, hmin]
      rw [he]
      exact ⟨rfl, hr.1, hr.2⟩
  · by_cases hp : 0 < s.cursorPos
    · have hp1 : s.cursorPos - 1 ≥ 0 := by omega
      have he : moveCursor false ticks s
          = recalculate { s with cursorPos := s.cursorPos - 1, cursorTicks := ticks } := by
        simp [moveCursor, hp1]
      have hr := relayout_result { s with cursorPos := s.cursorPos - 1, cursorTicks := ticks }
        font hf hpos
      have hmax : max (s.cursorPos - 1) 0 = s.cursorPos - 1 := by omega
      simp only [hp, if_true, hmax]
      rw [he]
      exact ⟨rfl, hr.1, hr.2⟩
    · have hp1 : ¬ s.cursorPos - 1 ≥ 0 := by omega
      have he : moveCursor false ticks s = recalculate s := by
        simp [moveCursor, hp1]
      have hr := relayout_result s font hf hpos
      have hmax : max (s.cursorPos - 1) 0 = s.cursorPos := by omega
      simp only [hp, if_false, hmax]
      rw [he]
      exact ⟨rfl, hr.1, hr.2⟩

/-- The clamp of C13 with the cursor at the end of "AB": moveCursor(true)
returns a state with the cursor still at 2, moveCursor(false) one with the
cursor at 1. -/
theorem moveCursor_clamps_witness :
    (0 : Int) ≤ cursorAtEndArea.cursorPos ∧
    cursorAtEndArea.cursorPos ≤ cursorAtEndArea.text.length ∧
    (∃ t, moveCursor true 7 cursorAtEndArea = some t ∧ t.text = cursorAtEndArea.text ∧
      t.cursorPos = min (cursorAtEndArea.cursorPos + 1) cursorAtEndArea.text.length) ∧
    (∃ t, moveCursor false 7 cursorAtEndArea = some t ∧ t.text = cursorAtEndArea.text ∧
      t.cursorPos = max (cursorAtEndArea.cursorPos - 1) 0) :=
  ⟨by decide, by decide,
    (moveCursor_clamps cursorAtEndArea (lineFont (fun _ => 10) 10 0) 7 (by decide) (by decide)
      (by decide) rfl (by decide)).1.2.1 (by decide),
    (moveCursor_clamps cursorAtEndArea (lineFont (fun _ => 10) 10 0) 7 (by decide) (by decide)
      (by decide) rfl (by decide)).2.2.1 (by decide)⟩

/-- C20. Insert and backspace round trip. In a state with
0 <= cursorPos <= text.length() whose font gives every character a position,
appendCharacter(c) is the relayout of the state whose text has c inserted at
index cursorPos and whose cursorPos is one more; it returns when the scroll
reads of that relayout are in bounds, and every state t it returns has that text
and cursorPos. removeCharacter(false) on t is the relayout of t with the
original text and cursorPos put back; it returns when the scroll reads of that
relayout are in bounds, and every state it returns has the original text and
the original cursorPos. -/
theorem append_backspace_round_trip (s : TextArea) (font : Font) (c : Nat)
    (ticks ticks1 : Int) (h0 : 0 ≤ s.cursorPos) (h1 : s.cursorPos ≤ s.text.length)
    (hf : s.font = some font)
    (hpos : ∀ text align, text.length ≤ (font.calculateGlyphsPositions text align).1.length) :
    appendCharacter c ticks s = recalculate { s with
        text := s.text.take s.cursorPos.toNat ++ c :: s.text.drop s.cursorPos.toNat,
        cursorPos := s.cursorPos + 1, cursorTicks := ticks } ∧
      (s.text.take s.cursorPos.toNat ++ c :: s.text.drop s.cursorPos.toNat)[s.cursorPos.toNat]?
        = some c ∧
      (scrollReadsInBounds { s with
          text := s.text.take s.cursorPos.toNat ++ c :: s.text.drop s.cursorPos.toNat,
          cursorPos := s.cursorPos + 1, cursorTicks := ticks } →
        ∃ t, appendCharacter c ticks s = some t) ∧
      ∀ t, appendCharacter c ticks s = some t →
        t.text = s.text.take s.cursorPos.toNat ++ c :: s.text.drop s.cursorPos.toNat ∧
        t.cursorPos = s.cursorPos + 1 ∧
        removeCharacter false ticks1 t = recalculate { t with
          cursorPos := s.cursorPos, text := s.text, cursorTicks := ticks1 } ∧
        (scrollReadsInBounds { t with
            cursorPos := s.cursorPos, text := s.text, cursorTicks := ticks1 } →
          ∃ u, removeCharacter false ticks1 t = some u ∧
            u.text = s.text ∧ u.cursorPos = s.cursorPos) ∧
        ∀ u, removeCharacter false ticks1 t = some u →
          u.text = s.text ∧ u.cursorPos = s.cursorPos := by
  have hn : s.cursorPos.toNat ≤ s.text.length := by omega
  have hgt : ¬ s.cursorPos > s.text.length := by omega
  have he : appendCharacter c ticks s = recalculate { s with
      text := s.text.take s.cursorPos.toNat ++ c :: s.text.drop s.cursorPos.toNat,
      cursorPos := s.cursorPos + 1, cursorTicks := ticks } := by
    simp only [appendCharacter, h0, ge_iff_le, if_true, hgt, if_false]
  have hr := relayout_result { s with
      text := s.text.take s.cursorPos.toNat ++ c :: s.text.drop s.cursorPos.toNat,
      cursorPos := s.cursorPos + 1, cursorTicks := ticks } font hf (hpos _ _)
  refine ⟨he, getElem_insert s.text c _ hn, fun hb => ?_, fun t ht => ?_⟩
  · obtain ⟨t, ht, _⟩ := hr.1 hb
    exact ⟨t, he.trans ht⟩
  rw [he] at ht
  have hfr := recalculate_frame _ _ ht
  have ht1 : t.text = s.text.take s.cursorPos.toNat ++ c :: s.text.drop s.cursorPos.toNat :=
    hfr.text
  have hc1 : t.cursorPos = s.cursorPos + 1 := hfr.cursorPos
  have hft : t.font = some font := hfr.font.trans hf
  have hlen : (t.text.length : Int) = s.text.length + 1 := by
    rw [ht1, length_insert s.text c _ hn]; push_cast; rfl
  have e1 : t.cursorPos - 1 = s.cursorPos := by omega
  have e2 : t.text.eraseIdx (t.cursorPos - 1).toNat = s.text := by
    rw [e1, ht1]
    exact eraseIdx_insert s.text c _ hn
  have he2 : removeCharacter false ticks1 t = recalculate { t with
      cursorPos := s.cursorPos, text := s.text, cursorTicks := ticks1 } := by
    rw [removeCharacter_false_pos t ticks1 (by omega) (by omega), e2, e1]
  have hr2 := relayout_result { t with
      cursorPos := s.cursorPos, text := s.text, cursorTicks := ticks1 } font hft (hpos _ _)
  refine ⟨ht1, hc1, he2, ?_, ?_⟩
  · rw [he2]; exact hr2.1
  · rw [he2]; exact hr2.2

/-- The round trip of C20 on the text "AB" with the cursor at its end, inserting
"C": appendCharacter returns a state with the text "ABC" and the cursor at 3,
and the backspace on it returns a state with the text "AB" and the cursor at 2. -/
theorem append_backspace_round_trip_witness :
    (0 : Int) ≤ cursorAtEndArea.cursorPos ∧
    cursorAtEndArea.cursorPos ≤ cursorAtEndArea.text.length ∧
    ∃ t, appendCharacter 67 7 cursorAtEndArea = some t ∧ t.text = [65, 66, 67] ∧
      t.cursorPos = 3 ∧
      ∃ u, removeCharacter false 9 t = some u ∧ u.text = [65, 66] ∧ u.cursorPos = 2 := by
  have w := append_backspace_round_trip cursorAtEndArea (lineFont (fun _ => 10) 10 0) 67 7 9
    (by decide) (by decide) rfl (fun text _ => le_of_eq (length_linePositions _ _ text 0).symm)
  have ht : appendCharacter 67 7 cursorAtEndArea = some { cursorAtEndArea with
      text := [65, 66, 67], cursorPos := 3, cursorTicks := 7,
      glyphsTexCoords := [⟨1040, 0, 1049, 9⟩, ⟨1056, 0, 1065, 9⟩, ⟨1072, 0, 1081, 9⟩],
      glyphsCoords := [⟨0, 0, 9, 9⟩, ⟨10, 0, 19, 9⟩, ⟨20, 0, 29, 9⟩] } := rfl
  obtain ⟨k1, k2, _, k4, _⟩ := w.2.2.2 _ ht
  obtain ⟨u, hu, hu1, hu2⟩ := k4 (by decide)
  exact ⟨by decide, by decide, _, ht, k1, k2, u, hu, hu1, hu2⟩

/-- C14. Control characters are never laid out. With a valid screenCoords and a font
whose position list covers the text, recalculate returns when its scroll reads are in
bounds, and in every state it returns, each index i whose character code is below 32 has
glyphsCoords[i] equal to the default rect, which is not valid; font metrics, alignment,
cursor and scroll state are arbitrary. -/
theorem control_characters_not_laid_out (s : TextArea) (font : Font)
    (hv : s.screenCoords.isValid) (hf : s.font = some font)
    (hpos : s.text.length ≤ (font.calculateGlyphsPositions s.text s.align).1.length) :
    (scrollReadsInBounds s → ∃ t, recalculate s = some t) ∧
      ∀ t, recalculate s = some t → ∀ (i c : Nat), s.text[i]? = some c → c < 32 →
        t.glyphsCoords[i]? = some Rect.default ∧ ¬ Rect.default.isValid := by
  refine ⟨fun hb => recalculate_returns s font hv hf hpos hb, fun t ht i c hi hc => ?_⟩
  exact ⟨((recalculate_entry s t font hv hf ht i c hi).1 hc).1, by decide⟩

/-- The property of C14 on the text "A\nB", whose character 1 is a newline. -/
theorem control_characters_not_laid_out_witness :
    controlArea.text[1]? = some 10 ∧
    (scrollReadsInBounds controlArea → ∃ t, recalculate controlArea = some t) ∧
      ∀ t, recalculate controlArea = some t → ∀ (i c : Nat), controlArea.text[i]? = some c →
        c < 32 → t.glyphsCoords[i]? = some Rect.default ∧ ¬ Rect.default.isValid :=
  ⟨rfl, control_characters_not_laid_out controlArea (lineFont (fun _ => 10) 10 0) (by decide) rfl
    (by decide)⟩

/-! ## The font registry -/

/-- C15, the code at the failing input: the directory listing holds the file
"a.ymlb.yml", which ends in ".yml" and whose stem (the name without its last 4
characters) is "a.ymlb". `Fonts::init` erases the first occurrence of ".yml",
so it registers the font loaded from "fonts/a.ymlb.yml" under "ab.yml";
`get("a.ymlb")` finds nothing. The font is identified by the path it was loaded
from. -/
theorem fonts_init_erases_first_yml :
    endsWith (str "a.ymlb.yml") (str ".yml") = true ∧
    (str "a.ymlb.yml").take ((str "a.ymlb.yml").length - 4) = str "a.ymlb" ∧
    eraseFirst (str ".yml") (str "a.ymlb.yml") = str "ab.yml" ∧
    Fonts.get (Fonts.init id [str "a.ymlb.yml"] []) (str "a.ymlb") = none ∧
    Fonts.get (Fonts.init id [str "a.ymlb.yml"] []) (str "ab.yml")
      = some (str "fonts/a.ymlb.yml") := by
  decide

/-! ## The scroll-right snap -/

/-- C16, the code at the failing input: six glyphs of 10x10 on the row of
ordinate 10, cursor behind the sixth, viewport 50x10 at scroll offset (0,0).
`recalculate` takes the scroll-right branch: glyph 5 has the natural rectangle
(50,10)-(59,19), which the virtual viewport (0,0)-(49,9) does not contain, and
neither new coordinate is clamped (59 - 50 + 1 > 0 and 19 - 10 > 0). The new
offset is (10,9): the new virtual viewport has the bottom-right corner (59,18),
one row above the corner (59,19) of the glyph, whose last row is clipped
(stored rectangle (40,1)-(49,9), 9 rows high). The state is the one in which
`setScreenCoords(Rect(0, 0, 50, 10))` calls `recalculate` after the constructor
with a 60x20 viewport, `enableCursor(true)` and six `moveCursor(true)`. -/
theorem scroll_right_snap_bottom_off_by_one :
    0 ≤ secondRowArea.cursorPos ∧
    secondRowArea.startRenderPos < secondRowArea.cursorPos ∧
    secondRowArea.text[5]? = some 65 ∧
    naturalRect (lineFont (fun _ => 10) 10 10) ⟨50, 10⟩ 65 = ⟨50, 10, 59, 19⟩ ∧
    virtualViewport secondRowArea = ⟨0, 0, 49, 9⟩ ∧
    ¬ (virtualViewport secondRowArea).contains ⟨59, 19⟩ ∧
    (0 : Int) < 59 - (virtualViewport secondRowArea).width + 1 ∧
    (0 : Int) < 19 - (virtualViewport secondRowArea).height ∧
    (recalculate secondRowArea).map
        (fun t => (t.startInternalPos, (virtualViewport t).bottomRight, t.glyphsCoords[5]?))
      = some (⟨10, 9⟩, ⟨59, 18⟩, some ⟨40, 1, 49, 9⟩) ∧
    ((mkWith (some (lineFont (fun _ => 10) 10 10)) [65, 65, 65, 65, 65, 65]
        (Rect.ofXYWH 0 0 60 20) ALIGN_TOP_LEFT Color.white 0).bind
        (runMutators (moveRightCalls 6 ++ [.setScreenCoords (Rect.ofXYWH 0 0 50 10)]))).map
        (fun t => (t.cursorPos, t.startInternalPos, (virtualViewport t).bottomRight,
          t.glyphsCoords[5]?)) = some (6, ⟨10, 9⟩, ⟨59, 18⟩, some ⟨40, 1, 49, 9⟩) := by
  decide

/-! ## The read before the cursor -/

/-- C17, the code at the failing input: the state left by `TextArea(font, "AB",
Rect(0, 0, 50, 10), ALIGN_TOP_LEFT, white)`, `enableCursor(true)` and
`setText("\n")` is reachable and has a valid `screenCoords`, `cursorPos == 0`,
a text of length 1 and `startRenderPos == -1`. `recalculate` takes the branch
`cursorPos > startRenderPos` there and reads `m_text[-1]`, which is outside the
text: neither `recalculate` nor `setAlign` has a defined result. The same read
happens in `enableCursor(true)` right after the constructor with the text "\n". -/
theorem scroll_right_reads_before_text :
    Reachable newlineArea ∧
    newlineArea.screenCoords.isValid ∧
    0 ≤ newlineArea.cursorPos ∧
    newlineArea.text.length = 1 ∧
    newlineArea.startRenderPos < newlineArea.cursorPos ∧
    newlineArea.cursorPos - 1 = -1 ∧
    readChar newlineArea.text (newlineArea.cursorPos - 1) = none ∧
    recalculate newlineArea = none ∧
    (Mutator.setAlign ALIGN_TOP_LEFT).apply newlineArea = none ∧
    (mkWith (some (lineFont (fun _ => 10) 10 0)) [10] (Rect.ofXYWH 0 0 50 10) ALIGN_TOP_LEFT
      Color.white 0).bind (enableCursor true 0) = none :=
  ⟨Reachable.step (Mutator.setText [10] 5) cursorArea newlineArea
    (Reachable.step (Mutator.enableCursor true 3) laidOutArea cursorArea
      (Reachable.withArgs (some (lineFont (fun _ => 10) 10 0)) [65, 66] (Rect.ofXYWH 0 0 50 10)
        ALIGN_TOP_LEFT Color.white 0 laidOutArea (by decide) rfl)
      (by simp [Mutator.fitsInt]) rfl)
    (by simp [Mutator.fitsInt]) rfl,
   by decide, by decide, rfl, by decide, rfl, rfl, rfl, rfl, rfl⟩

/-! ## Clipping -/

/-- The unclipped screen rectangle of a glyph has the size of the glyph. -/
theorem size_unclippedGlyphRect (font : Font) (screenCoords : Rect) (align : Nat)
    (textBoxSize : Size) (startInternalPos pos : Point) (glyph : Nat) :
    (unclippedGlyphRect font screenCoords align textBoxSize startInternalPos pos glyph).size
      = font.glyphsSize glyph := by
  unfold unclippedGlyphRect
  rw [alignGlyph_eq]
  generalize font.glyphsSize glyph = sz
  obtain ⟨w, h⟩ := sz
  simp only [Rect.ofPointSize, Rect.translate, Rect.size, Rect.width, Rect.height,
    Size.mk.injEq]
  constructor <;> omega

/-- The rectangles stored for a glyph: every edge of the screen rectangle is the
edge of the unclipped rectangle bounded by the viewport, and every edge of the
texture rectangle is moved from the atlas rectangle by the same amount. -/
theorem layoutGlyph_clip (font : Font) (screenCoords : Rect) (align : Nat) (textBoxSize : Size)
    (startInternalPos pos : Point) (glyph : Nat) (gt : Rect × Rect)
    (h : layoutGlyph font screenCoords align textBoxSize startInternalPos pos glyph = some gt) :
    gt.1.top = max
        (unclippedGlyphRect font screenCoords align textBoxSize startInternalPos pos glyph).top
        screenCoords.top ∧
      gt.1.left = max
        (unclippedGlyphRect font screenCoords align textBoxSize startInternalPos pos glyph).left
        screenCoords.left ∧
      gt.1.bottom = min
        (unclippedGlyphRect font screenCoords align textBoxSize startInternalPos pos glyph).bottom
        screenCoords.bottom ∧
      gt.1.right = min
        (unclippedGlyphRect font screenCoords align textBoxSize startInternalPos pos glyph).right
        screenCoords.right ∧
      gt.2.top - (font.glyphsTextureCoords glyph).top = gt.1.top -
        (unclippedGlyphRect font screenCoords align textBoxSize startInternalPos pos glyph).top ∧
      gt.2.left - (font.glyphsTextureCoords glyph).left = gt.1.left -
        (unclippedGlyphRect font screenCoords align textBoxSize startInternalPos pos glyph).left ∧
      gt.2.bottom - (font.glyphsTextureCoords glyph).bottom = gt.1.bottom -
        (unclippedGlyphRect font screenCoords align textBoxSize startInternalPos pos
          glyph).bottom ∧
      gt.2.right - (font.glyphsTextureCoords glyph).right = gt.1.right -
        (unclippedGlyphRect font screenCoords align textBoxSize startInternalPos pos
          glyph).right := by
  unfold layoutGlyph at h
  unfold unclippedGlyphRect
  generalize alignGlyph screenCoords align textBoxSize
    (Rect.ofPointSize pos (font.glyphsSize glyph)) = a at h ⊢
  generalize font.glyphsTextureCoords glyph = tc at h ⊢
  obtain ⟨a1, b1, a2, b2⟩ := a
  obtain ⟨c1, d1, c2, d2⟩ := screenCoords
  obtain ⟨e1, f1, e2, f2⟩ := tc
  obtain ⟨sx, sy⟩ := startInternalPos
  simp only [clipTopLeft, clipBottomRight, Rect.top, Rect.left, Rect.bottom, Rect.right,
    Rect.setTop, Rect.setLeft, Rect.setBottom, Rect.setRight, Rect.translate,
    Rect.topLeft] at h ⊢
  split_ifs at h
  all_goals simp only [Option.some.injEq] at *
  all_goals subst h
  all_goals simp only
  all_goals omega
/-- Two valid rectangles that intersect overlap on both axes. -/
theorem intersects_bounds (a b : Rect) (ha : a.isValid) (h : a.intersects b) (hb : b.isValid) :
    b.x1 ≤ a.x2 ∧ a.x1 ≤ b.x2 ∧ b.y1 ≤ a.y2 ∧ a.y1 ≤ b.y2 := by
  obtain ⟨a1, b1, a2, b2⟩ := a
  obtain ⟨c1, d1, c2, d2⟩ := b
  simp only [Rect.intersects, Rect.isValid, Rect.isNull] at *
  split_ifs at h <;> omega

/-- A glyph of at least 1x1 that is stored gets a valid rectangle inside the
viewport. -/
theorem layoutGlyph_valid (font : Font) (screenCoords : Rect) (align : Nat) (textBoxSize : Size)
    (startInternalPos pos : Point) (glyph : Nat) (gt : Rect × Rect)
    (hv : screenCoords.isValid) (hw : 1 ≤ (font.glyphsSize glyph).width)
    (hh : 1 ≤ (font.glyphsSize glyph).height)
    (h : layoutGlyph font screenCoords align textBoxSize startInternalPos pos glyph = some gt) :
    gt.1.isValid ∧ screenCoords.left ≤ gt.1.left ∧ screenCoords.top ≤ gt.1.top ∧
      gt.1.right ≤ screenCoords.right ∧ gt.1.bottom ≤ screenCoords.bottom := by
  unfold layoutGlyph at h
  rw [alignGlyph_eq] at h
  generalize specAlignDx align screenCoords.width textBoxSize.width = dx at h
  generalize specAlignDy align screenCoords.height textBoxSize.height = dy at h
  generalize font.glyphsTextureCoords glyph = tc at h
  generalize font.glyphsSize glyph = sz at h hw hh
  obtain ⟨w, ht⟩ := sz
  obtain ⟨px, py⟩ := pos
  obtain ⟨c1, d1, c2, d2⟩ := screenCoords
  obtain ⟨e1, f1, e2, f2⟩ := tc
  obtain ⟨sx, sy⟩ := startInternalPos
  have hv0 := hv
  simp only [Rect.isValid] at hv
  simp only [clipTopLeft, clipBottomRight, Rect.top, Rect.left, Rect.bottom, Rect.right,
    Rect.setTop, Rect.setLeft, Rect.setBottom, Rect.setRight, Rect.translate,
    Rect.topLeft, Rect.ofPointSize] at h hw hh ⊢
  split_ifs at h
  all_goals simp only [Option.some.injEq, not_not] at *
  all_goals (
    have hi := intersects_bounds _ _ hv0 ‹Rect.intersects _ _›
    simp only [Rect.isValid] at hi
    have hi2 := hi (by omega)
    subst h
    simp only [Rect.isValid]
    omega)

/-- C18. Sub-glyph clipping keeps screen and texture rectangles in step. With a
valid screenCoords and a font whose atlas rectangles have the size of their
glyphs, recalculate returns when its scroll reads are in bounds, and in every
state it returns, each index i with a valid glyphsCoords[i] holds a glyph of
the text whose glyphsTexCoords[i] has the size of glyphsCoords[i]; each edge of
the screen rectangle is the edge of the unclipped screen rectangle bounded by
screenCoords, and the top, left, bottom and right edges of the texture
rectangle are moved from the atlas rectangle of the glyph by exactly the
amounts by which the corresponding screen edges were moved. -/
theorem clipping_keeps_texture_in_step (s : TextArea) (font : Font)
    (hv : s.screenCoords.isValid) (hf : s.font = some font)
    (hpos : s.text.length ≤ (font.calculateGlyphsPositions s.text s.align).1.length)
    (hatlas : ∀ c, (font.glyphsTextureCoords c).size = font.glyphsSize c) :
    (scrollReadsInBounds s → ∃ t, recalculate s = some t) ∧
      ∀ t, recalculate s = some t → ∀ (i : Nat) (g : Rect),
        t.glyphsCoords[i]? = some g → g.isValid →
        ∃ (glyph : Nat) (pos : Point) (tc u : Rect), s.text[i]? = some glyph ∧
          (font.calculateGlyphsPositions s.text s.align).1[i]? = some pos ∧
          t.glyphsTexCoords[i]? = some tc ∧
          u = unclippedGlyphRect font s.screenCoords s.align
            (font.calculateGlyphsPositions s.text s.align).2 t.startInternalPos pos glyph ∧
          tc.size = g.size ∧
          g.top = max u.top s.screenCoords.top ∧ g.left = max u.left s.screenCoords.left ∧
          g.bottom = min u.bottom s.screenCoords.bottom ∧
          g.right = min u.right s.screenCoords.right ∧
          tc.top - (font.glyphsTextureCoords glyph).top = g.top - u.top ∧
          tc.left - (font.glyphsTextureCoords glyph).left = g.left - u.left ∧
          tc.bottom - (font.glyphsTextureCoords glyph).bottom = g.bottom - u.bottom ∧
          tc.right - (font.glyphsTextureCoords glyph).right = g.right - u.right := by
  refine ⟨fun hb => recalculate_returns s font hv hf hpos hb, fun t ht i g hg hgv => ?_⟩
  have hlen := (recalculate_lengths s t hv ht).1
  have hi : i < s.text.length := by
    rw [← hlen]
    by_contra hn
    rw [List.getElem?_eq_none (by omega)] at hg
    exact absurd hg (by simp)
  obtain ⟨h32, hge⟩ := recalculate_entry s t font hv hf ht i (s.text[i]) (List.getElem?_eq_getElem hi)
  have hdef : t.glyphsCoords[i]? ≠ some Rect.default := by
    intro hd
    rw [hd] at hg
    simp only [Option.some.injEq] at hg
    subst hg
    exact absurd hgv (by decide)
  by_cases hc : s.text[i] < 32
  · exact absurd (h32 hc).1 hdef
  · obtain ⟨pos, hp, hnone, hsome⟩ := hge (by omega)
    cases hl : layoutGlyph font s.screenCoords s.align
        (font.calculateGlyphsPositions s.text s.align).2 t.startInternalPos pos (s.text[i]) with
    | none => exact absurd (hnone hl).1 hdef
    | some gt =>
      obtain ⟨e1, e2⟩ := hsome gt hl
      have eg : g = gt.1 := by
        rw [e1] at hg
        exact (Option.some.inj hg).symm
      obtain ⟨k1, k2, k3, k4, k5, k6, k7, k8⟩ := layoutGlyph_clip _ _ _ _ _ _ _ _ hl
      have hu := size_unclippedGlyphRect font s.screenCoords s.align
        (font.calculateGlyphsPositions s.text s.align).2 t.startInternalPos pos (s.text[i])
      have ha := hatlas (s.text[i])
      rw [← hu] at ha
      refine ⟨s.text[i], pos, gt.2, _, List.getElem?_eq_getElem hi, hp, e2, rfl, ?_,
        eg ▸ k1, eg ▸ k2, eg ▸ k3, eg ▸ k4, eg ▸ k5, eg ▸ k6, eg ▸ k7, eg ▸ k8⟩
      rw [eg]
      simp only [Rect.size, Rect.width, Rect.height, Size.mk.injEq, Rect.top, Rect.left,
        Rect.bottom, Rect.right] at ha k5 k6 k7 k8 ⊢
      constructor <;> omega

/-- The property of C18 on six glyphs of 10x10 on the row of ordinate 10 in a
50x10 viewport with the cursor at the end: the scroll snap clips the last row
of every glyph. -/
theorem clipping_keeps_texture_in_step_witness :
    (scrollReadsInBounds secondRowArea → ∃ t, recalculate secondRowArea = some t) ∧
      ∀ t, recalculate secondRowArea = some t → ∀ (i : Nat) (g : Rect),
        t.glyphsCoords[i]? = some g → g.isValid →
        ∃ (glyph : Nat) (pos : Point) (tc u : Rect), secondRowArea.text[i]? = some glyph ∧
          ((lineFont (fun _ => 10) 10 10).calculateGlyphsPositions secondRowArea.text
            secondRowArea.align).1[i]? = some pos ∧
          t.glyphsTexCoords[i]? = some tc ∧
          u = unclippedGlyphRect (lineFont (fun _ => 10) 10 10) secondRowArea.screenCoords
            secondRowArea.align
            ((lineFont (fun _ => 10) 10 10).calculateGlyphsPositions secondRowArea.text
              secondRowArea.align).2 t.startInternalPos pos glyph ∧
          tc.size = g.size ∧
          g.top = max u.top secondRowArea.screenCoords.top ∧
          g.left = max u.left secondRowArea.screenCoords.left ∧
          g.bottom = min u.bottom secondRowArea.screenCoords.bottom ∧
          g.right = min u.right secondRowArea.screenCoords.right ∧
          tc.top - ((lineFont (fun _ => 10) 10 10).glyphsTextureCoords glyph).top
            = g.top - u.top ∧
          tc.left - ((lineFont (fun _ => 10) 10 10).glyphsTextureCoords glyph).left
            = g.left - u.left ∧
          tc.bottom - ((lineFont (fun _ => 10) 10 10).glyphsTextureCoords glyph).bottom
            = g.bottom - u.bottom ∧
          tc.right - ((lineFont (fun _ => 10) 10 10).glyphsTextureCoords glyph).right
            = g.right - u.right :=
  clipping_keeps_texture_in_step secondRowArea (lineFont (fun _ => 10) 10 10) (by decide) rfl
    (by decide)
    (fun c => by
      simp only [lineFont, Rect.size, Rect.width, Rect.height, Rect.ofXYWH, Size.mk.injEq]
      constructor <;> omega)

/-- C19. Every laid-out glyph lies inside the viewport. With a valid
screenCoords and a font whose glyph sizes are all at least 1x1, recalculate
returns when its scroll reads are in bounds, and in every state it returns,
each glyphsCoords[i] is the default rectangle or a valid rectangle inside
screenCoords (left and top not before, right and bottom not after those of
screenCoords); text, alignment, cursor and scroll state are arbitrary. -/
theorem laid_out_glyphs_inside_viewport (s : TextArea) (font : Font)
    (hv : s.screenCoords.isValid) (hf : s.font = some font)
    (hpos : s.text.length ≤ (font.calculateGlyphsPositions s.text s.align).1.length)
    (hsize : ∀ c, 1 ≤ (font.glyphsSize c).width ∧ 1 ≤ (font.glyphsSize c).height) :
    (scrollReadsInBounds s → ∃ t, recalculate s = some t) ∧
      ∀ t, recalculate s = some t → t.glyphsCoords.length = s.text.length ∧
        ∀ (i : Nat) (g : Rect), t.glyphsCoords[i]? = some g →
          g = Rect.default ∨
          (g.isValid ∧ 1 ≤ g.width ∧ 1 ≤ g.height ∧
            s.screenCoords.left ≤ g.left ∧ s.screenCoords.top ≤ g.top ∧
            g.right ≤ s.screenCoords.right ∧ g.bottom ≤ s.screenCoords.bottom) := by
  refine ⟨fun hb => recalculate_returns s font hv hf hpos hb, fun t ht => ?_⟩
  have hlen := (recalculate_lengths s t hv ht).1
  refine ⟨hlen, fun i g hg => ?_⟩
  have hi : i < s.text.length := by
    rw [← hlen]
    by_contra hn
    rw [List.getElem?_eq_none (by omega)] at hg
    exact absurd hg (by simp)
  obtain ⟨h32, hge⟩ := recalculate_entry s t font hv hf ht i (s.text[i]) (List.getElem?_eq_getElem hi)
  by_cases hc : s.text[i] < 32
  · left
    rw [(h32 hc).1] at hg
    exact (Option.some.inj hg).symm
  · obtain ⟨pos, hp, hnone, hsome⟩ := hge (by omega)
    cases hl : layoutGlyph font s.screenCoords s.align
        (font.calculateGlyphsPositions s.text s.align).2 t.startInternalPos pos (s.text[i]) with
    | none =>
      left
      rw [(hnone hl).1] at hg
      exact (Option.some.inj hg).symm
    | some gt =>
      right
      have eg : g = gt.1 := by
        rw [(hsome gt hl).1] at hg
        exact (Option.some.inj hg).symm
      obtain ⟨k1, k2, k3, k4, k5⟩ := layoutGlyph_valid _ _ _ _ _ _ _ _ hv
        (hsize (s.text[i])).1 (hsize (s.text[i])).2 hl
      rw [eg]
      refine ⟨k1, ?_, ?_, k2, k3, k4, k5⟩
      · simp only [Rect.isValid, Rect.width] at k1 ⊢; omega
      · simp only [Rect.isValid, Rect.height] at k1 ⊢; omega

/-- The property of C19 on six glyphs of 10x10 on the row of ordinate 10 in a
50x10 viewport with the cursor at the end. -/
theorem laid_out_glyphs_inside_viewport_witness :
    (scrollReadsInBounds secondRowArea → ∃ t, recalculate secondRowArea = some t) ∧
      ∀ t, recalculate secondRowArea = some t →
        t.glyphsCoords.length = secondRowArea.text.length ∧
        ∀ (i : Nat) (g : Rect), t.glyphsCoords[i]? = some g →
          g = Rect.default ∨
          (g.isValid ∧ 1 ≤ g.width ∧ 1 ≤ g.height ∧
            secondRowArea.screenCoords.left ≤ g.left ∧ secondRowArea.screenCoords.top ≤ g.top ∧
            g.right ≤ secondRowArea.screenCoords.right ∧
            g.bottom ≤ secondRowArea.screenCoords.bottom) :=
  laid_out_glyphs_inside_viewport secondRowArea (lineFont (fun _ => 10) 10 10) (by decide) rfl
    (by decide)
    (fun _ => ⟨show (1 : Int) ≤ 10 by decide, show (1 : Int) ≤ 10 by decide⟩)

end OTClient
